import Mathlib

/-!
# thor worker: request dispatch, score adjustment, costing and trace setup, cleanup

A shallow embedding of `src/thor/worker.cc`.

Conventions of the embedding.

* A C++ function whose behaviour can be undefined (dereferencing `end()`, indexing a
  vector out of bounds, `front()` of an empty list) returns an `Option`; `none` stands for
  "the standard assigns no behaviour to this run".
* A C++ function that can throw returns the state it leaves behind together with an
  `Except exception _`.
* The arithmetic of `float` (literals, subtraction, comparison) is a parameter of
  `adjust_scores`; `exact_arith` reads scores as exact rationals and `binary32_arith` is
  IEEE 754 single precision with rounding to nearest, ties to even.
* Collaborators that live outside `worker.cc` (the search algorithms, the costing factory,
  the serializers, the JSON accessors) are parameters of the definitions that call them.
* Logging has no effect on any value computed here and is left out.
-/

namespace valhalla

/-! ## Protocol-buffer records used by `worker.cc` -/

/-- Modelled from the spec: the protocol-buffer enum `odin::DirectionsOptions::Costing` is
declared outside `worker.cc`.  Its enumerators are the ten costings of the max-score table,
spelled as the keys of `kMaxScores` spell them (`auto_` for auto, `auto` being a reserved
word of C++). -/
inductive Costing where
  | auto_ | auto_shorter | bicycle | bus | hov
  | motor_scooter | multimodal | pedestrian | transit | truck
  deriving DecidableEq, Repr

/-- Modelled from the spec: `odin::DirectionsOptions::Costing_Name`, the generated function
giving the identifier of an enumerator. -/
def Costing_Name : Costing → String
  | .auto_ => "auto_"
  | .auto_shorter => "auto_shorter"
  | .bicycle => "bicycle"
  | .bus => "bus"
  | .hov => "hov"
  | .motor_scooter => "motor_scooter"
  | .multimodal => "multimodal"
  | .pedestrian => "pedestrian"
  | .transit => "transit"
  | .truck => "truck"

/-- Modelled from the spec: the protocol-buffer enum `odin::DirectionsOptions::Action` is
declared outside `worker.cc`.  The six actions `work` dispatches on, and `other` for every
tag that reaches the `default` label of its `switch`. -/
inductive Action where
  | route | optimized_route | sources_to_targets | isochrone | trace_route | trace_attributes
  | other (tag : Nat)
  deriving DecidableEq, Repr

/-- The types of the objects that `worker.cc` holds or passes on without looking inside,
and the type `float` of the scores. -/
structure Externals where
  /-- The values of the C++ type `float`. -/
  float : Type
  AStarPathAlgorithm : Type
  BidirectionalAStar : Type
  MultiModalPathAlgorithm : Type
  Isochrone : Type
  /-- What a `meili::MapMatcherFactory` owns besides its graph reader. -/
  MatcherCache : Type
  GraphReader : Type
  /-- The object a `sif::cost_ptr_t` points to. -/
  DynamicCost : Type
  Measurement : Type
  /-- A `rapidjson::Value`. -/
  Value : Type
  /-- The interrupt callback. -/
  Interrupt : Type
  http_request_info_t : Type
  /-- The JSON payload handed to `to_response_json`. -/
  Json : Type

/-- The arithmetic of the type `float` as far as `adjust_scores` uses it: the value of a
literal such as `43200.0f`, the subtraction `a - b` with whatever rounding it performs, and
the comparison `a < b`.  The comparison `a > b` of line 61 is `b < a`. -/
structure float_arith (F : Type) where
  literal : Nat → F
  sub : F → F → F
  lt : F → F → Bool

/-- The smaller of two floats as `std::min(a, b)` gives it: `b` when `b < a`, else `a`. -/
def float_arith.min {F : Type} (A : float_arith F) (a b : F) : F :=
  if A.lt b a then b else a

/-- The message `odin::Location::PathEdge`: a candidate edge.  `graph_id` stands for the
fields other than the score, none of which `worker.cc` writes. -/
structure PathEdge (X : Externals) where
  graph_id : Nat
  score : X.float

/-- The message `odin::Location`.  `ll` stands for the fields other than the candidate
list. -/
structure Location (X : Externals) where
  ll : Nat
  path_edges : List (PathEdge X)

/-- The message `odin::DirectionsOptions`, restricted to the fields `worker.cc` reads or
writes. -/
structure DirectionsOptions (X : Externals) where
  action : Action
  costing : Costing
  locations : List (Location X)
  sources : List (Location X)
  targets : List (Location X)

/-! ## The max-score table and the adjustment of one location -/

/-- The table `kMaxScores` (worker.cc lines 37-48); its values are `float` literals. -/
def kMaxScores {F : Type} (A : float_arith F) : List (String × F) :=
  [ ("auto_", A.literal 43200),
    ("auto_shorter", A.literal 43200),
    ("bicycle", A.literal 7200),
    ("bus", A.literal 43200),
    ("hov", A.literal 43200),
    ("motor_scooter", A.literal 14400),
    ("multimodal", A.literal 7200),
    ("pedestrian", A.literal 7200),
    ("transit", A.literal 14400),
    ("truck", A.literal 43200) ]

/-- The call `kMaxScores.find(key)`: `none` is the past-the-end iterator. -/
def kMaxScores_find {F : Type} (A : float_arith F) (key : String) : Option F :=
  (kMaxScores A).lookup key

/-- The algorithm `std::min_element` with the comparator `i.score() < j.score()`: the
first edge that no later edge replaced by comparing strictly smaller; `none` is the
past-the-end iterator of an empty range. -/
def min_element {X : Externals} (A : float_arith X.float) :
    List (PathEdge X) → Option (PathEdge X)
  | [] => none
  | first :: rest =>
    some (rest.foldl
      (fun smallest e => if A.lt e.score smallest.score then e else smallest) first)

/-- The body of the loop over the candidates of one location (lines 59-63): the score is
lowered by the minimum, then capped by `max_score->second`.  Dereferencing the
past-the-end `max_score` is undefined. -/
def adjust_edge {X : Externals} (A : float_arith X.float) (max_score : Option X.float)
    (minScoreEdge : PathEdge X) (e : PathEdge X) : Option (PathEdge X) :=
  let e := { e with score := A.sub e.score minScoreEdge.score }
  match max_score with
  | none => none
  | some second => some (if A.lt second e.score then { e with score := second } else e)

/-- A range-based `for` whose body rewrites the element in place and may be undefined. -/
def for_each {α : Type} (body : α → Option α) : List α → Option (List α)
  | [] => some []
  | x :: xs =>
    match body x with
    | none => none
    | some y =>
      match for_each body xs with
      | none => none
      | some ys => some (y :: ys)

/-- The body of the loop over locations (lines 55-63).  `minScoreEdge` is a copy taken
before any score is written; dereferencing the result of `min_element` on an empty
candidate list is undefined. -/
def adjust_location {X : Externals} (A : float_arith X.float) (max_score : Option X.float)
    (location : Location X) : Option (Location X) :=
  match min_element A location.path_edges with
  | none => none
  | some minScoreEdge =>
    match for_each (adjust_edge A max_score minScoreEdge) location.path_edges with
    | none => none
    | some edges => some { location with path_edges := edges }

/-! ### What the specification says about score adjustment -/

/-- The max-score table as the specification words it, in seconds. -/
def spec_max_score : Costing → Nat
  | .auto_ | .auto_shorter | .bus | .hov | .truck => 43200
  | .motor_scooter | .transit => 14400
  | .bicycle | .multimodal | .pedestrian => 7200

/-- The specification's description of what happens to one location: with `m` a candidate
of `before` that no candidate has a smaller score than, every score `s` becomes the
smaller of `s - m.score` and `M`, the subtraction and the comparison being those of
`float`, and nothing else changes. -/
def adjusted_by {X : Externals} (A : float_arith X.float) (M : X.float)
    (before after : Location X) : Prop :=
  ∃ m ∈ before.path_edges, (∀ e ∈ before.path_edges, A.lt e.score m.score = false) ∧
    after = { before with
      path_edges :=
        before.path_edges.map (fun e => { e with score := A.min (A.sub e.score m.score) M }) }

/-- The specification's bounds on one location, the scores read as exact rationals through
`val`: `after` is `before` with the same candidates in the same order, every score of
`after` lies between 0 and `M`, one of them is 0, and all are 0 when there is a single
candidate. -/
def clamped_within {X : Externals} (val : X.float → ℚ) (M : X.float)
    (before after : Location X) : Prop :=
  after.ll = before.ll ∧
    after.path_edges.map (fun e => e.graph_id) = before.path_edges.map (fun e => e.graph_id) ∧
    (∀ e ∈ after.path_edges, 0 ≤ val e.score ∧ val e.score ≤ val M) ∧
    (∃ e ∈ after.path_edges, val e.score = 0) ∧
    (before.path_edges.length = 1 → ∀ e ∈ after.path_edges, val e.score = 0)

/-! ## Exceptions -/

/-- The domain error `valhalla_exception_t`: a status code and an optional detail text.
`valhalla_exception_t{400}` is `⟨400, none⟩`, and the braced initialiser
`{499, std::string(e.what())}` is `⟨499, some what⟩`. -/
structure valhalla_exception_t where
  code : Nat
  extra : Option String
  deriving DecidableEq, Repr

/-- The classes of `std::exception` that `worker.cc` tells apart in a `catch` clause. -/
inductive std_kind where
  | invalid_argument | out_of_range | runtime_error | other
  deriving DecidableEq, Repr

/-- A thrown object: a `valhalla_exception_t`, or another `std::exception` with the text
`what()` returns.  Both `catch` clauses of `work` name classes derived from
`std::exception`. -/
inductive exception where
  | valhalla (e : valhalla_exception_t)
  | std (kind : std_kind) (what : String)
  deriving DecidableEq, Repr

/-! ## Property trees -/

/-- The data of one node of the trace configuration: `put<std::string>` stores a string,
`put<float>` a number. -/
inductive ptree_data where
  | string (s : String)
  | float (x : ℚ)
  deriving DecidableEq, Repr

/-- Modelled from the spec: the trace configuration is a `boost::property_tree::ptree`,
a type declared outside `worker.cc`; it is taken as the string-keyed map the specification
describes, the list of its paths with their data, in insertion order. -/
abbrev ptree := List (String × ptree_data)

/-- The call `ptree::put(key, value)`: the data at `key` is replaced when the path exists, and the
path is appended otherwise. -/
def ptree.put : ptree → String → ptree_data → ptree
  | [], key, value => [(key, value)]
  | (k, v) :: rest, key, value =>
    if k = key then (k, value) :: rest else (k, v) :: ptree.put rest key value

/-- The data stored at `key`, when the path exists. -/
def ptree.get : ptree → String → Option ptree_data
  | [], _ => none
  | (k, v) :: rest, key => if k = key then some v else ptree.get rest key

/-! ## The worker and its collaborators -/

/-- Modelled from the spec: the enum `sif::TravelMode` is declared outside `worker.cc`.
Its four modes are those of the costings auto, pedestrian, bicycle and transit, and a
mode's position is the slot of `mode_costing` that the multimodal branch of
`parse_costing` fills for it (lines 243-246). -/
inductive TravelMode where
  | kDrive | kPedestrian | kBicycle | kPublicTransit
  deriving DecidableEq, Repr

/-- The conversion `static_cast<uint32_t>(mode)`, as an index into the four slots. -/
def TravelMode.index : TravelMode → Fin 4
  | .kDrive => 0
  | .kPedestrian => 1
  | .kBicycle => 2
  | .kPublicTransit => 3

/-- The member `matcher_factory`.  The constructor binds the member `reader` to
`matcher_factory.graphreader()`, so the graph reader is part of this object. -/
structure MapMatcherFactory (X : Externals) where
  graphreader : X.GraphReader
  cache : X.MatcherCache

/-- The members of `thor_worker_t` that the functions of `worker.cc` embedded here read or
write.  A null `cost_ptr_t` is `none`. -/
structure thor_worker_t (X : Externals) where
  mode : TravelMode
  mode_costing : Fin 4 → Option X.DynamicCost
  astar : X.AStarPathAlgorithm
  bidir_astar : X.BidirectionalAStar
  multi_modal_astar : X.MultiModalPathAlgorithm
  isochrone_gen : X.Isochrone
  matcher_factory : MapMatcherFactory X
  trace : List X.Measurement
  trace_config : ptree
  trace_customizable : List String
  optimal_order : List Nat
  interrupt : Option X.Interrupt

/-- The member `reader`, a reference to the graph reader of `matcher_factory`. -/
def thor_worker_t.reader {X : Externals} (w : thor_worker_t X) : X.GraphReader :=
  w.matcher_factory.graphreader

/-- The parsed JSON document of a request, as far as `worker.cc` reads it: the string at
`/costing`, the members of `/costing_options`, and the members of `/trace_options` when
that is an object. -/
structure Document (X : Externals) where
  costing : Option String
  costing_options : List (String × X.Value)
  trace_options : Option (List (String × X.Value))

/-- The record `valhalla_request_t`. -/
structure valhalla_request_t (X : Externals) where
  document : Document X
  options : DirectionsOptions X

/-- The message `odin::TripPath::Location`; `ll` stands for the fields other than the
original index, which is an optional field. -/
structure TripLocation where
  ll : Nat
  original_index : Option Nat
  deriving DecidableEq, Repr

/-- The message `odin::TripPath`; `node` stands for the fields other than the locations. -/
structure TripPath where
  node : Nat
  location : List TripLocation
  deriving DecidableEq, Repr

/-- The type `worker_t::result_t`: `result_t{true}` has no messages. -/
structure result_t where
  intermediate : Bool
  messages : List String
  deriving DecidableEq, Repr

/-- The outcome of a call that can throw and that works on a state `σ`: the state it
leaves, and the value returned or the object thrown. -/
abbrev Thrower (σ α : Type) := σ × Except exception α

/-- The functions `worker.cc` calls and that are defined elsewhere. -/
structure Collaborators (X : Externals) where
  astar_Clear : X.AStarPathAlgorithm → X.AStarPathAlgorithm
  bidir_astar_Clear : X.BidirectionalAStar → X.BidirectionalAStar
  multi_modal_astar_Clear : X.MultiModalPathAlgorithm → X.MultiModalPathAlgorithm
  isochrone_gen_Clear : X.Isochrone → X.Isochrone
  ClearFullCache : MapMatcherFactory X → MapMatcherFactory X
  OverCommitted : X.GraphReader → Bool
  reader_Clear : X.GraphReader → X.GraphReader
  /-- The call `factory.Create(costing, options)`; `none` is the empty property tree. -/
  factory_Create : String → Option X.Value → Except exception X.DynamicCost
  travel_mode : X.DynamicCost → TravelMode
  /-- The object `rapidjson::get` throws for a path with no member. -/
  no_member : String → exception
  /-- The accessor `Value::GetFloat`. -/
  GetFloat : X.Value → Except exception ℚ
  /-- The call `request.parse(request_str, serialized_options)` on a fresh request. -/
  parse : String → String → Thrower (valhalla_request_t X) Unit
  matrix : thor_worker_t X → valhalla_request_t X →
    Thrower (thor_worker_t X × valhalla_request_t X) X.Json
  optimized_route : thor_worker_t X → valhalla_request_t X →
    Thrower (thor_worker_t X × valhalla_request_t X) (List TripPath)
  isochrones : thor_worker_t X → valhalla_request_t X →
    Thrower (thor_worker_t X × valhalla_request_t X) X.Json
  route : thor_worker_t X → valhalla_request_t X →
    Thrower (thor_worker_t X × valhalla_request_t X) (List TripPath)
  trace_route : thor_worker_t X → valhalla_request_t X →
    Thrower (thor_worker_t X × valhalla_request_t X) TripPath
  trace_attributes : thor_worker_t X → valhalla_request_t X →
    Thrower (thor_worker_t X × valhalla_request_t X) X.Json
  to_response_json : X.Json → X.http_request_info_t → valhalla_request_t X → result_t
  jsonify_error : valhalla_exception_t → X.http_request_info_t → valhalla_request_t X →
    result_t
  SerializeAsString : TripPath → String

/-! ## adjust_scores and parse_locations -/

/-- The function `adjust_scores` (lines 51-66): the three location lists of the options
are walked in the order locations, sources, targets. -/
def adjust_scores {X : Externals} (A : float_arith X.float) (request : valhalla_request_t X) :
    Option (valhalla_request_t X) :=
  let max_score := kMaxScores_find A (Costing_Name request.options.costing)
  match for_each (adjust_location A max_score) request.options.locations with
  | none => none
  | some locations =>
    match for_each (adjust_location A max_score) request.options.sources with
    | none => none
    | some sources =>
      match for_each (adjust_location A max_score) request.options.targets with
      | none => none
      | some targets =>
        some { request with
          options :=
            { request.options with
              locations := locations, sources := sources, targets := targets } }

/-- The method `thor_worker_t::parse_locations` (lines 257-260). -/
def parse_locations {X : Externals} (A : float_arith X.float)
    (request : valhalla_request_t X) : Option (valhalla_request_t X) :=
  adjust_scores A request

/-! ## work -/

/-- One more than the largest `size_t`, taken as 64 bits wide. -/
def SIZE_RANGE : Nat := 2 ^ 64

/-- One more than the largest `int`, taken as 32 bits wide. -/
def INT_RANGE : Nat := 2 ^ 31

/-- The inner loop of the optimized_route case (lines 151-152): every location of one trip
path gets `optimal_order[order_index++]`.  Indexing past the end of the vector is
undefined.  Returns the locations, the index after the loop, and the positions of
`optimal_order` that were read, in order. -/
def tag_locations (optimal_order : List Nat) :
    List TripLocation → Nat → Option (List TripLocation × Nat × List Nat)
  | [], order_index => some ([], order_index, [])
  | location :: rest, order_index =>
    match optimal_order[order_index]? with
    | none => none
    | some index =>
      match tag_locations optimal_order rest ((order_index + 1) % SIZE_RANGE) with
      | none => none
      | some (rest', order_index', reads) =>
        some ({ location with original_index := some index } :: rest', order_index',
          order_index :: reads)

/-- The outer loop of the optimized_route case (lines 150-155): the locations of every trip
path are tagged, and `--order_index` steps back by one after each trip path (wrapping
around at zero, `order_index` being a `size_t`).  Returns the trip paths as they are
serialized and the positions of `optimal_order` that were read. -/
def tag_trippaths (optimal_order : List Nat) :
    List TripPath → Nat → Option (List TripPath × List Nat)
  | [], _ => some ([], [])
  | trippath :: rest, order_index =>
    match tag_locations optimal_order trippath.location order_index with
    | none => none
    | some (location, order_index', reads) =>
      match tag_trippaths optimal_order rest ((order_index' + (SIZE_RANGE - 1)) % SIZE_RANGE) with
      | none => none
      | some (rest', reads') =>
        some ({ trippath with location := location } :: rest', reads ++ reads')

/-- What a call of `work` leaves behind: the result it returns, the worker, and the value
of the local `denominator` when line 185 is reached (`none` when a handler returned). -/
structure work_return (X : Externals) where
  result : result_t
  worker : thor_worker_t X
  denominator : Option Nat

/-- The two `catch` clauses of `work` (lines 194-201). -/
def work_catch {X : Externals} (C : Collaborators X) (info : X.http_request_info_t)
    (w : thor_worker_t X) (request : valhalla_request_t X) (e : exception) : work_return X :=
  match e with
  | .valhalla e => { result := C.jsonify_error e info request, worker := w, denominator := none }
  | .std _ what =>
    { result := C.jsonify_error ⟨499, some what⟩ info request, worker := w, denominator := none }

/-- The method `thor_worker_t::work` (lines 122-202).  `job.front()` and `job.back()` of an
empty list are undefined, and so is an `int` sum or product that overflows.  The elapsed
time and the long-request log are not modelled. -/
def work {X : Externals} (C : Collaborators X) (w : thor_worker_t X) (job : List String)
    (info : X.http_request_info_t) (interrupt_function : X.Interrupt) :
    Option (work_return X) :=
  match job.head?, job.getLast? with
  | some request_str, some serialized_options =>
    match C.parse request_str serialized_options with
    | (request, .error e) => some (work_catch C info w request e)
    | (request, .ok _) =>
      let w := { w with interrupt := some interrupt_function }
      let result : result_t := { intermediate := true, messages := [] }
      match request.options.action with
      | .sources_to_targets =>
        match C.matrix w request with
        | ((w, request), .error e) => some (work_catch C info w request e)
        | ((w, request), .ok json) =>
          let result := C.to_response_json json info request
          let denominator := request.options.sources.length + request.options.targets.length
          if denominator < INT_RANGE then
            some { result := result, worker := w, denominator := some denominator }
          else none
      | .optimized_route =>
        let result :=
          { result with messages := result.messages ++ [request_str, serialized_options] }
        match C.optimized_route w request with
        | ((w, request), .error e) => some (work_catch C info w request e)
        | ((w, request), .ok trippaths) =>
          match tag_trippaths w.optimal_order trippaths 0 with
          | none => none
          | some (trippaths, _) =>
            let result :=
              { result with messages := result.messages ++ trippaths.map C.SerializeAsString }
            let denominator := max request.options.sources.length request.options.targets.length
            some { result := result, worker := w, denominator := some denominator }
      | .isochrone =>
        match C.isochrones w request with
        | ((w, request), .error e) => some (work_catch C info w request e)
        | ((w, request), .ok json) =>
          let result := C.to_response_json json info request
          let denominator := request.options.sources.length * request.options.targets.length
          if denominator < INT_RANGE then
            some { result := result, worker := w, denominator := some denominator }
          else none
      | .route =>
        let result :=
          { result with messages := result.messages ++ [request_str, serialized_options] }
        match C.route w request with
        | ((w, request), .error e) => some (work_catch C info w request e)
        | ((w, request), .ok trippaths) =>
          let result :=
            { result with messages := result.messages ++ trippaths.map C.SerializeAsString }
          let denominator := request.options.locations.length
          some { result := result, worker := w, denominator := some denominator }
      | .trace_route =>
        let result :=
          { result with messages := result.messages ++ [request_str, serialized_options] }
        match C.trace_route w request with
        | ((w, request), .error e) => some (work_catch C info w request e)
        | ((w, _), .ok trippath) =>
          let result :=
            { result with messages := result.messages ++ [C.SerializeAsString trippath] }
          let denominator := w.trace.length / 1100
          some { result := result, worker := w, denominator := some denominator }
      | .trace_attributes =>
        match C.trace_attributes w request with
        | ((w, request), .error e) => some (work_catch C info w request e)
        | ((w, request), .ok json) =>
          let result := C.to_response_json json info request
          let denominator := w.trace.length / 1100
          some { result := result, worker := w, denominator := some denominator }
      | .other _ => some (work_catch C info w request (.valhalla ⟨400, none⟩))
  | _, _ => none

/-! ## parse_costing -/

/-- The method `thor_worker_t::get_costing` (lines 227-233). -/
def get_costing {X : Externals} (C : Collaborators X) (request : Document X)
    (costing : String) : Except exception X.DynamicCost :=
  match request.costing_options.lookup costing with
  | some costing_options => C.factory_Create costing (some costing_options)
  | none => C.factory_Create costing none

/-- The method `thor_worker_t::parse_costing` (lines 235-255). -/
def parse_costing {X : Externals} (C : Collaborators X) (w : thor_worker_t X)
    (request : valhalla_request_t X) : Thrower (thor_worker_t X) String :=
  match request.document.costing with
  | none => (w, .error (C.no_member "/costing"))
  | some costing =>
    if costing = "multimodal" ∨ costing = "transit" then
      match get_costing C request.document "auto" with
      | .error e => (w, .error e)
      | .ok cost0 =>
        let w := { w with mode_costing := Function.update w.mode_costing 0 (some cost0) }
        match get_costing C request.document "pedestrian" with
        | .error e => (w, .error e)
        | .ok cost1 =>
          let w := { w with mode_costing := Function.update w.mode_costing 1 (some cost1) }
          match get_costing C request.document "bicycle" with
          | .error e => (w, .error e)
          | .ok cost2 =>
            let w := { w with mode_costing := Function.update w.mode_costing 2 (some cost2) }
            match get_costing C request.document "transit" with
            | .error e => (w, .error e)
            | .ok cost3 =>
              let w := { w with mode_costing := Function.update w.mode_costing 3 (some cost3) }
              let w := { w with mode := TravelMode.kPedestrian }
              (w, .ok costing)
    else
      match get_costing C request.document costing with
      | .error e => (w, .error e)
      | .ok cost =>
        let w := { w with mode := C.travel_mode cost }
        let w := { w with mode_costing := Function.update w.mode_costing w.mode.index (some cost) }
        (w, .ok costing)

/-! ## parse_trace_config -/

/-- The loop over the members of `/trace_options` (lines 298-310). -/
def overlay_trace_options {X : Externals} (C : Collaborators X) :
    thor_worker_t X → List (String × X.Value) → Thrower (thor_worker_t X) Unit
  | w, [] => (w, .ok ())
  | w, (name, value) :: rest =>
    if name ∈ w.trace_customizable then
      match C.GetFloat value with
      | .ok x =>
        overlay_trace_options C { w with trace_config := w.trace_config.put name (.float x) } rest
      | .error (.std .invalid_argument _) =>
        (w, .error (.std .invalid_argument
          ("Invalid argument: unable to parse " ++ name ++ " to float")))
      | .error (.std .out_of_range _) =>
        (w, .error (.std .out_of_range ("Invalid argument: " ++ name ++ " is out of float range")))
      | .error e => (w, .error e)
    else overlay_trace_options C w rest

/-- The method `thor_worker_t::parse_trace_config` (lines 285-311). -/
def parse_trace_config {X : Externals} (C : Collaborators X) (w : thor_worker_t X)
    (request : valhalla_request_t X) : Thrower (thor_worker_t X) Unit :=
  match request.document.costing with
  | none => (w, .error (C.no_member "/costing"))
  | some costing =>
    let w := { w with trace_config := w.trace_config.put "mode" (.string costing) }
    if w.trace_customizable.isEmpty then (w, .ok ())
    else
      match request.document.trace_options with
      | none => (w, .ok ())
      | some trace_options => overlay_trace_options C w trace_options

/-! ## cleanup -/

/-- The method `thor_worker_t::cleanup` (lines 333-342). -/
def cleanup {X : Externals} (C : Collaborators X) (w : thor_worker_t X) : thor_worker_t X :=
  let w := { w with astar := C.astar_Clear w.astar }
  let w := { w with bidir_astar := C.bidir_astar_Clear w.bidir_astar }
  let w := { w with multi_modal_astar := C.multi_modal_astar_Clear w.multi_modal_astar }
  let w := { w with trace := [] }
  let w := { w with isochrone_gen := C.isochrone_gen_Clear w.isochrone_gen }
  let w := { w with matcher_factory := C.ClearFullCache w.matcher_factory }
  if C.OverCommitted w.reader then
    { w with matcher_factory :=
        { w.matcher_factory with graphreader := C.reader_Clear w.reader } }
  else w

/-! ### What the specification says about the original indices -/

/-- The sum of `k - 1` over the trip paths of `legs`, `k` being the number of locations of
a trip path. -/
def leg_steps (legs : List TripPath) : Nat :=
  (legs.map (fun t => t.location.length - 1)).sum

/-- The sum of `k_m - 1` over the trip paths before the `i`-th. -/
def leg_offset (legs : List TripPath) (i : Nat) : Nat :=
  leg_steps (legs.take i)

/-- The locations of one trip path, the `j`-th one carrying `optimal_order[start + j]`. -/
def spec_tag_locations (optimal_order : List Nat) : Nat → List TripLocation → List TripLocation
  | _, [] => []
  | start, l :: ls =>
    { l with original_index := optimal_order[start]? } ::
      spec_tag_locations optimal_order (start + 1) ls

/-- The trip paths, each one tagged from the position where the one before it ended. -/
def spec_tag_trippaths (optimal_order : List Nat) : Nat → List TripPath → List TripPath
  | _, [] => []
  | start, t :: ts =>
    { t with location := spec_tag_locations optimal_order start t.location } ::
      spec_tag_trippaths optimal_order (start + (t.location.length - 1)) ts

/-- The positions read for the trip paths, in order. -/
def spec_reads : Nat → List TripPath → List Nat
  | _, [] => []
  | start, t :: ts =>
    List.range' start t.location.length ++ spec_reads (start + (t.location.length - 1)) ts

/-- The original indices of all locations of all trip paths, in order. -/
def original_indices (legs : List TripPath) : List (Option Nat) :=
  legs.flatMap (fun t => t.location.map (fun l => l.original_index))

/-- The original indices with the first location of every trip path after the first left
out: a location where two consecutive trip paths meet is counted once. -/
def original_indices_junctions_once : List TripPath → List (Option Nat)
  | [] => []
  | t :: ts =>
    t.location.map (fun l => l.original_index) ++
      ts.flatMap (fun t => (t.location.drop 1).map (fun l => l.original_index))

/-! ## Example inputs -/

/-- Two trip paths of an optimized route over three locations: each has its origin and its
destination, and the second starts where the first ends. -/
def example_legs : List TripPath :=
  [⟨0, [⟨10, none⟩, ⟨11, none⟩]⟩, ⟨1, [⟨11, none⟩, ⟨12, none⟩]⟩]

/-- The trip paths of `example_legs` as tagged with the order `[2, 0, 1]`. -/
def example_legs_tagged : List TripPath :=
  [⟨0, [⟨10, some 2⟩, ⟨11, some 0⟩]⟩, ⟨1, [⟨11, some 0⟩, ⟨12, some 1⟩]⟩]

/-- Example types for the collaborators: a float is the rational it stands for, an
algorithm's scratch state is its list of edge labels, the graph reader its list of cached
tiles, a costing is its name, a JSON value is a number or `none` for anything else. -/
abbrev example_externals : Externals where
  float := ℚ
  AStarPathAlgorithm := List Nat
  BidirectionalAStar := List Nat
  MultiModalPathAlgorithm := List Nat
  Isochrone := List Nat
  MatcherCache := List Nat
  GraphReader := List Nat
  DynamicCost := String
  Measurement := Nat
  Value := Option ℚ
  Interrupt := Unit
  http_request_info_t := Nat
  Json := String

/-- The arithmetic of scores taken as exact rationals: nothing is rounded. -/
def exact_arith : float_arith ℚ where
  literal := fun n => (n : ℚ)
  sub := fun a b => a - b
  lt := fun a b => decide (a < b)

/-- A value of IEEE 754 single precision: a finite value `±mantissa * 2 ^ exponent` (zero
keeps its sign), an infinity, or a NaN. -/
inductive binary32 where
  | finite (negative : Bool) (mantissa : Nat) (exponent : Int)
  | infinity (negative : Bool)
  | nan
  deriving DecidableEq, Repr

/-- The rational a finite single-precision value stands for. -/
def binary32.value (negative : Bool) (mantissa : Nat) (exponent : Int) : ℚ :=
  (if negative then -1 else 1) * (mantissa : ℚ) * (2 : ℚ) ^ exponent

/-- The number of binary digits of `n`, by at most `fuel` halvings. -/
def bit_length_fuel : Nat → Nat → Nat
  | 0, _ => 0
  | fuel + 1, n => if n = 0 then 0 else bit_length_fuel fuel (n / 2) + 1

/-- The number of binary digits of `n` (0 for 0); `n` halvings are enough. -/
def bit_length (n : Nat) : Nat :=
  bit_length_fuel n n

/-- The single-precision value nearest to `±mantissa * 2 ^ exponent`, ties going to the
even significand: at most 24 bits of significand are kept, the exponent of the last bit
is at least -149, and a magnitude of `2 ^ 128` or more becomes an infinity. -/
def binary32.round (negative : Bool) (mantissa : Nat) (exponent : Int) : binary32 :=
  let bits : Int := (bit_length mantissa : Nat)
  let drop : Int := max (bits - 24) (-149 - exponent)
  if drop ≤ 0 then
    if bits + exponent > 128 then .infinity negative else .finite negative mantissa exponent
  else
    let k := drop.toNat
    let q := mantissa / 2 ^ k
    let r := mantissa % 2 ^ k
    let half := 2 ^ (k - 1)
    let n := if r > half ∨ (r = half ∧ q % 2 = 1) then q + 1 else q
    let bits' : Int := (bit_length n : Nat)
    if bits' + (exponent + drop) > 128 then .infinity negative
    else .finite negative n (exponent + drop)

/-- Single-precision subtraction: the exact difference, rounded once. -/
def binary32.sub : binary32 → binary32 → binary32
  | .nan, _ => .nan
  | _, .nan => .nan
  | .infinity s, .infinity t => if s = t then .nan else .infinity s
  | .infinity s, .finite _ _ _ => .infinity s
  | .finite _ _ _, .infinity t => .infinity (!t)
  | .finite s m e, .finite t n f =>
    let g := min e f
    let a : Int := (if s then -1 else 1) * ((m * 2 ^ (e - g).toNat : Nat) : Int)
    let b : Int := (if t then -1 else 1) * ((n * 2 ^ (f - g).toNat : Nat) : Int)
    if a - b = 0 then .finite (s && !t) 0 0
    else binary32.round (decide (a - b < 0)) (a - b).natAbs g

/-- Single-precision `<`: false whenever an operand is a NaN. -/
def binary32.lt : binary32 → binary32 → Bool
  | .nan, _ => false
  | _, .nan => false
  | .infinity s, .infinity t => s && !t
  | .infinity s, .finite _ _ _ => s
  | .finite _ _ _, .infinity t => !t
  | .finite s m e, .finite t n f => decide (binary32.value s m e < binary32.value t n f)

/-- The arithmetic of IEEE 754 single precision, rounding to nearest, ties to even. -/
def binary32_arith : float_arith binary32 where
  literal := fun n => binary32.round false n 0
  sub := binary32.sub
  lt := binary32.lt

/-- The example types with single-precision scores. -/
abbrev binary32_externals : Externals :=
  { example_externals with float := binary32 }

/-- A location with the scores 1000 and `2 ^ -60`, whose exact difference is not a
single-precision value. -/
def binary32_location : Location binary32_externals :=
  ⟨0, [⟨1, .finite false 1000 0⟩, ⟨2, .finite false 1 (-60)⟩]⟩

/-- A location with the scores `0.3f` and `0.1f`. -/
def binary32_location_tenths : Location binary32_externals :=
  ⟨0, [⟨1, .finite false 10066330 (-25)⟩, ⟨2, .finite false 13421773 (-27)⟩]⟩

/-- Options of a route request for auto: one location with a far and a near candidate, one
location with a single candidate. -/
def example_options : DirectionsOptions example_externals :=
  { action := .route, costing := .auto_,
    locations := [⟨0, [⟨7, 50000⟩, ⟨8, 10⟩, ⟨9, 25⟩]⟩, ⟨1, [⟨3, 4⟩]⟩],
    sources := [], targets := [] }

/-- The options `adjust_scores` turns `example_options` into under `exact_arith`. -/
def example_options_adjusted : DirectionsOptions example_externals :=
  { action := .route, costing := .auto_,
    locations := [⟨0, [⟨7, 43200⟩, ⟨8, 0⟩, ⟨9, 15⟩]⟩, ⟨1, [⟨3, 0⟩]⟩],
    sources := [], targets := [] }

/-- The request the example parser produces: the action is named by the options frame. -/
def example_request (serialized_options : String) : valhalla_request_t example_externals where
  document := { costing := some "auto", costing_options := [], trace_options := none }
  options :=
    { example_options with
      action :=
        if serialized_options = "route" then .route
        else if serialized_options = "optimized_route" then .optimized_route
        else if serialized_options = "sources_to_targets" then .sources_to_targets
        else if serialized_options = "isochrone" then .isochrone
        else if serialized_options = "trace_route" then .trace_route
        else if serialized_options = "trace_attributes" then .trace_attributes
        else .other 1 }

/-- Example collaborators.  Clearing empties; the reader is over-committed above two
tiles; the factory knows the nine registered names; parsing fails with status 400 on an
empty request frame; the matrix fails with a runtime error; the optimized route returns
`example_legs` in the order `[2, 0, 1]`; a trace action leaves one measurement. -/
def example_collaborators : Collaborators example_externals where
  astar_Clear := fun _ => []
  bidir_astar_Clear := fun _ => []
  multi_modal_astar_Clear := fun _ => []
  isochrone_gen_Clear := fun _ => []
  ClearFullCache := fun m => { m with cache := [] }
  OverCommitted := fun r => decide (2 < List.length r)
  reader_Clear := fun _ => []
  factory_Create := fun costing _ =>
    if costing ∈ ["auto", "auto_shorter", "bus", "bicycle", "hov", "motor_scooter",
        "pedestrian", "transit", "truck"] then .ok costing
    else .error (.std .runtime_error "No costing method found")
  travel_mode := fun cost =>
    if cost = "pedestrian" then .kPedestrian
    else if cost = "bicycle" then .kBicycle
    else if cost = "transit" then .kPublicTransit
    else .kDrive
  no_member := fun path => .std .runtime_error path
  GetFloat := fun value =>
    match value with
    | some x => .ok x
    | none => .error (.std .other "IsNumber()")
  parse := fun request_str serialized_options =>
    (example_request serialized_options,
      if request_str = "" then .error (.valhalla ⟨400, none⟩) else .ok ())
  matrix := fun w request => ((w, request), .error (.std .runtime_error "no path"))
  optimized_route := fun w request =>
    (({ w with optimal_order := [2, 0, 1] }, request), .ok example_legs)
  isochrones := fun w request => ((w, request), .ok "isochrone")
  route := fun w request => ((w, request), .ok example_legs)
  trace_route := fun w request => (({ w with trace := [5] }, request), .ok ⟨2, []⟩)
  trace_attributes := fun w request => (({ w with trace := [5] }, request), .ok "attributes")
  to_response_json := fun json _ _ => ⟨false, [json]⟩
  jsonify_error := fun e _ _ =>
    ⟨false, [toString e.code ++ ":" ++ e.extra.getD ""]⟩
  SerializeAsString := fun trippath =>
    toString trippath.node ++ ":" ++
      toString (trippath.location.map (fun l => l.original_index.getD 99))

/-- A freshly constructed example worker: no costing installed, the mode is pedestrian. -/
def example_worker : thor_worker_t example_externals where
  mode := .kPedestrian
  mode_costing := fun _ => none
  astar := [1, 2]
  bidir_astar := [3]
  multi_modal_astar := []
  isochrone_gen := [4]
  matcher_factory := { graphreader := [10, 11, 12], cache := [7] }
  trace := [1, 2, 3]
  trace_config := [("mode", .string "auto"), ("search_radius", .float 50)]
  trace_customizable := ["search_radius", "gps_accuracy"]
  optimal_order := []
  interrupt := none

/-- The example request with another costing name in its document. -/
def example_request_costing (costing : String) : valhalla_request_t example_externals :=
  { example_request "route" with
    document := { costing := some costing, costing_options := [], trace_options := none } }

/-- The example worker after it has served a multimodal request and cleaned up. -/
def example_worker_served : thor_worker_t example_externals :=
  cleanup example_collaborators
    (parse_costing example_collaborators example_worker (example_request_costing "multimodal")).1

/-- A trace request for the example worker: three trace options, of which `search_radius`
is customizable and numeric, `turn_penalty_factor` is not customizable, and `breakage` is
not customizable and not numeric. -/
def example_trace_request : valhalla_request_t example_externals :=
  { example_request "trace_route" with
    document :=
      { costing := some "bicycle", costing_options := [],
        trace_options :=
          some [("search_radius", some 35), ("turn_penalty_factor", some 200),
            ("breakage", none)] } }

/-! ### What the specification says about the trace configuration -/

/-- The overlay the specification describes: the given numbers are put, in order, at their
names. -/
def spec_overlay (config : ptree) (floats : List (String × ℚ)) : ptree :=
  floats.foldl (fun t q => t.put q.1 (.float q.2)) config

/-! ### What the specification says about the trace denominator -/

/-- The ceiling of `shape_count / 1100`, the denominator the specification gives for the
trace actions. -/
def spec_trace_denominator (shape_count : Nat) : Nat :=
  (shape_count + 1099) / 1100

/-! ## Lemmas on score adjustment -/

theorem for_each_eq_some_map {α : Type} (body : α → Option α) (g : α → α) :
    ∀ l : List α, (∀ x ∈ l, body x = some (g x)) → for_each body l = some (l.map g)
  | [], _ => rfl
  | x :: xs, h => by
    have hx : body x = some (g x) := h x (List.mem_cons_self _ _)
    have hxs : for_each body xs = some (xs.map g) :=
      for_each_eq_some_map body g xs (fun y hy => h y (List.mem_cons_of_mem _ hy))
    simp [for_each, hx, hxs]

theorem for_each_some_forall₂ {α : Type} (body : α → Option α) :
    ∀ (l l' : List α), for_each body l = some l' →
      List.Forall₂ (fun x y => body x = some y) l l'
  | [], l', h => by
    simp [for_each] at h
    subst h
    exact List.Forall₂.nil
  | x :: xs, l', h => by
    unfold for_each at h
    cases hx : body x with
    | none => simp [hx] at h
    | some y =>
      cases hxs : for_each body xs with
      | none => simp [hx, hxs] at h
      | some ys =>
        simp [hx, hxs] at h
        subst h
        exact List.Forall₂.cons hx (for_each_some_forall₂ body xs ys hxs)

theorem for_each_isSome_iff {α : Type} (body : α → Option α) :
    ∀ l : List α, (for_each body l).isSome = true ↔ ∀ x ∈ l, (body x).isSome = true
  | [] => by simp [for_each]
  | x :: xs => by
    have ih := for_each_isSome_iff body xs
    unfold for_each
    cases hx : body x with
    | none => simp [hx]
    | some y =>
      cases hxs : for_each body xs with
      | none =>
        rw [hxs] at ih
        simp at ih
        simpa [hx] using ih
      | some ys =>
        rw [hxs] at ih
        simp at ih
        simpa [hx] using ih

theorem foldl_smallest {X : Externals} (A : float_arith X.float)
    (hirr : ∀ a, A.lt a a = false)
    (htrans : ∀ a b c, A.lt a b = true → A.lt b c = true → A.lt a c = true)
    (rest : List (PathEdge X)) :
    ∀ first : PathEdge X,
      (rest.foldl (fun smallest e => if A.lt e.score smallest.score then e else smallest) first
          = first ∨
        (rest.foldl (fun smallest e => if A.lt e.score smallest.score then e else smallest)
            first ∈ rest ∧
          A.lt (rest.foldl
            (fun smallest e => if A.lt e.score smallest.score then e else smallest)
            first).score first.score = true)) ∧
      ∀ e ∈ rest, A.lt e.score (rest.foldl
        (fun smallest e => if A.lt e.score smallest.score then e else smallest)
        first).score = false := by
  have hno : ∀ a b, A.lt a b = true → A.lt b a = true → False := by
    intro a b hab hba
    have h := htrans a b a hab hba
    rw [hirr a] at h
    exact absurd h (by simp)
  induction rest with
  | nil => intro first; simp
  | cons x xs ih =>
    intro first
    simp only [List.foldl_cons]
    cases hlt : A.lt x.score first.score with
    | true =>
      obtain ⟨hmem, hall⟩ := ih x
      simp only [if_true]
      refine ⟨Or.inr ?_, ?_⟩
      · rcases hmem with h | ⟨h, hr⟩
        · rw [h]
          exact ⟨List.mem_cons_self _ _, hlt⟩
        · exact ⟨List.mem_cons_of_mem _ h, htrans _ _ _ hr hlt⟩
      · intro e he
        rcases List.mem_cons.mp he with h | h
        · rw [h]
          rcases hmem with h' | ⟨_, hr⟩
          · rw [h']
            exact hirr _
          · cases hxr : A.lt x.score
                (xs.foldl (fun smallest e => if A.lt e.score smallest.score then e else smallest)
                  x).score with
            | false => rfl
            | true => exact absurd (hno _ _ hxr hr) id
        · exact hall e h
    | false =>
      obtain ⟨hmem, hall⟩ := ih first
      simp only [Bool.false_eq_true, if_false]
      refine ⟨?_, ?_⟩
      · rcases hmem with h | ⟨h, hr⟩
        · exact Or.inl h
        · exact Or.inr ⟨List.mem_cons_of_mem _ h, hr⟩
      · intro e he
        rcases List.mem_cons.mp he with h | h
        · rw [h]
          rcases hmem with h' | ⟨_, hr⟩
          · rw [h']
            exact hlt
          · cases hxr : A.lt x.score
                (xs.foldl (fun smallest e => if A.lt e.score smallest.score then e else smallest)
                  first).score with
            | false => rfl
            | true =>
              have h2 := htrans _ _ _ hxr hr
              rw [hlt] at h2
              exact absurd h2 (by simp)
        · exact hall e h

theorem foldl_smallest_mem {X : Externals} (A : float_arith X.float)
    (rest : List (PathEdge X)) :
    ∀ first : PathEdge X,
      rest.foldl (fun smallest e => if A.lt e.score smallest.score then e else smallest) first
        ∈ first :: rest := by
  induction rest with
  | nil => intro first; simp
  | cons x xs ih =>
    intro first
    simp only [List.foldl_cons]
    cases hlt : A.lt x.score first.score with
    | true =>
      simp only [if_true]
      rcases List.mem_cons.mp (ih x) with h | h
      · rw [h]; simp
      · exact List.mem_cons_of_mem _ (List.mem_cons_of_mem _ h)
    | false =>
      simp only [Bool.false_eq_true, if_false]
      rcases List.mem_cons.mp (ih first) with h | h
      · rw [h]; simp
      · exact List.mem_cons_of_mem _ (List.mem_cons_of_mem _ h)

theorem min_element_spec {X : Externals} (A : float_arith X.float)
    (hirr : ∀ a, A.lt a a = false)
    (htrans : ∀ a b c, A.lt a b = true → A.lt b c = true → A.lt a c = true)
    (l : List (PathEdge X)) (hl : l ≠ []) :
    ∃ m, min_element A l = some m ∧ m ∈ l ∧ ∀ e ∈ l, A.lt e.score m.score = false := by
  cases l with
  | nil => exact absurd rfl hl
  | cons first rest =>
    obtain ⟨hmem, hall⟩ := foldl_smallest A hirr htrans rest first
    refine ⟨_, rfl, foldl_smallest_mem A rest first, ?_⟩
    intro e he
    rcases List.mem_cons.mp he with h | h
    · rw [h]
      rcases hmem with h' | ⟨_, hr⟩
      · rw [h']
        exact hirr _
      · cases hfr : A.lt first.score
            (rest.foldl (fun smallest e => if A.lt e.score smallest.score then e else smallest)
              first).score with
        | false => rfl
        | true =>
          have h2 := htrans _ _ _ hfr hr
          rw [hirr] at h2
          exact absurd h2 (by simp)
    · exact hall e h

theorem min_element_some {X : Externals} (A : float_arith X.float)
    (l : List (PathEdge X)) (hl : l ≠ []) : ∃ m, min_element A l = some m := by
  cases l with
  | nil => exact absurd rfl hl
  | cons first rest => exact ⟨_, rfl⟩

theorem kMaxScores_find_Costing_Name {F : Type} (A : float_arith F) (c : Costing) :
    kMaxScores_find A (Costing_Name c) = some (A.literal (spec_max_score c)) := by
  cases c <;> rfl

theorem adjust_edge_some {X : Externals} (A : float_arith X.float) (M : X.float)
    (m e : PathEdge X) :
    adjust_edge A (some M) m e = some { e with score := A.min (A.sub e.score m.score) M } := by
  unfold adjust_edge float_arith.min
  cases h : A.lt M (A.sub e.score m.score) <;> simp [h]

theorem adjust_location_nil {X : Externals} (A : float_arith X.float)
    (max_score : Option X.float) (location : Location X) (h : location.path_edges = []) :
    adjust_location A max_score location = none := by
  simp [adjust_location, h, min_element]

theorem adjust_location_eq {X : Externals} (A : float_arith X.float) (M : X.float)
    (location : Location X) (m : PathEdge X)
    (hm : min_element A location.path_edges = some m) :
    adjust_location A (some M) location =
      some { location with
        path_edges :=
          location.path_edges.map
            (fun e => { e with score := A.min (A.sub e.score m.score) M }) } := by
  have hfe := for_each_eq_some_map (adjust_edge A (some M) m)
    (fun e => { e with score := A.min (A.sub e.score m.score) M }) location.path_edges
    (fun e _ => adjust_edge_some A M m e)
  simp [adjust_location, hm, hfe]

theorem adjust_location_isSome_iff {X : Externals} (A : float_arith X.float) (M : X.float)
    (location : Location X) :
    (adjust_location A (some M) location).isSome = true ↔ location.path_edges ≠ [] := by
  constructor
  · intro hs hnil
    rw [adjust_location_nil _ _ _ hnil] at hs
    simp at hs
  · intro h
    obtain ⟨m, hm⟩ := min_element_some A location.path_edges h
    simp [adjust_location_eq A M location m hm]

theorem adjust_location_some {X : Externals} (A : float_arith X.float)
    (hirr : ∀ a, A.lt a a = false)
    (htrans : ∀ a b c, A.lt a b = true → A.lt b c = true → A.lt a c = true)
    (M : X.float) (before after : Location X)
    (h : adjust_location A (some M) before = some after) : adjusted_by A M before after := by
  have hne : before.path_edges ≠ [] := by
    intro hnil
    rw [adjust_location_nil _ _ _ hnil] at h
    simp at h
  obtain ⟨m, hm, hmem, hall⟩ := min_element_spec A hirr htrans before.path_edges hne
  rw [adjust_location_eq A M before m hm] at h
  exact ⟨m, hmem, hall, (Option.some.inj h).symm⟩

theorem for_each_adjust_location {X : Externals} (A : float_arith X.float)
    (hirr : ∀ a, A.lt a a = false)
    (htrans : ∀ a b c, A.lt a b = true → A.lt b c = true → A.lt a c = true)
    (M : X.float) (l l' : List (Location X))
    (h : for_each (adjust_location A (some M)) l = some l') :
    List.Forall₂ (adjusted_by A M) l l' :=
  List.Forall₂.imp (fun before after hba => adjust_location_some A hirr htrans M before after hba)
    (for_each_some_forall₂ _ l l' h)

theorem adjust_scores_eq_some {X : Externals} (A : float_arith X.float)
    (request request' : valhalla_request_t X)
    (h : adjust_scores A request = some request') :
    for_each (adjust_location A (some (A.literal (spec_max_score request.options.costing))))
        request.options.locations = some request'.options.locations ∧
      for_each (adjust_location A (some (A.literal (spec_max_score request.options.costing))))
        request.options.sources = some request'.options.sources ∧
      for_each (adjust_location A (some (A.literal (spec_max_score request.options.costing))))
        request.options.targets = some request'.options.targets ∧
      request'.options.costing = request.options.costing ∧
      request'.options.action = request.options.action ∧
      request'.document = request.document := by
  unfold adjust_scores at h
  simp only [kMaxScores_find_Costing_Name] at h
  cases hl : for_each
      (adjust_location A (some (A.literal (spec_max_score request.options.costing))))
      request.options.locations with
  | none => simp [hl] at h
  | some ls =>
    cases hs : for_each
        (adjust_location A (some (A.literal (spec_max_score request.options.costing))))
        request.options.sources with
    | none => simp [hl, hs] at h
    | some ss =>
      cases ht : for_each
          (adjust_location A (some (A.literal (spec_max_score request.options.costing))))
          request.options.targets with
      | none => simp [hl, hs, ht] at h
      | some ts =>
        simp [hl, hs, ht] at h
        subst h
        simp

theorem adjust_scores_isSome_iff {X : Externals} (A : float_arith X.float)
    (request : valhalla_request_t X) :
    (adjust_scores A request).isSome = true ↔
      ∀ location ∈ request.options.locations ++ request.options.sources ++
          request.options.targets,
        location.path_edges ≠ [] := by
  have hl := for_each_isSome_iff
    (adjust_location A (some (A.literal (spec_max_score request.options.costing))))
    request.options.locations
  have hs := for_each_isSome_iff
    (adjust_location A (some (A.literal (spec_max_score request.options.costing))))
    request.options.sources
  have ht := for_each_isSome_iff
    (adjust_location A (some (A.literal (spec_max_score request.options.costing))))
    request.options.targets
  simp only [adjust_location_isSome_iff] at hl hs ht
  unfold adjust_scores
  simp only [kMaxScores_find_Costing_Name]
  cases hl' : for_each
      (adjust_location A (some (A.literal (spec_max_score request.options.costing))))
      request.options.locations with
  | none =>
    rw [hl'] at hl
    simp at hl
    obtain ⟨x, hx, hnil⟩ := hl
    simp only [Option.isSome_none, Bool.false_eq_true, false_iff, not_forall]
    exact ⟨x, by simp [hx], fun hne => hne hnil⟩
  | some ls =>
    rw [hl'] at hl
    simp only [Option.isSome_some, true_iff] at hl
    cases hs' : for_each
        (adjust_location A (some (A.literal (spec_max_score request.options.costing))))
        request.options.sources with
    | none =>
      rw [hs'] at hs
      simp at hs
      obtain ⟨x, hx, hnil⟩ := hs
      simp only [Option.isSome_none, Bool.false_eq_true, false_iff, not_forall]
      exact ⟨x, by simp [hx], fun hne => hne hnil⟩
    | some ss =>
      rw [hs'] at hs
      simp only [Option.isSome_some, true_iff] at hs
      cases ht' : for_each
          (adjust_location A (some (A.literal (spec_max_score request.options.costing))))
          request.options.targets with
      | none =>
        rw [ht'] at ht
        simp at ht
        obtain ⟨x, hx, hnil⟩ := ht
        simp only [Option.isSome_none, Bool.false_eq_true, false_iff, not_forall]
        exact ⟨x, by simp [hx], fun hne => hne hnil⟩
      | some ts =>
        rw [ht'] at ht
        simp only [Option.isSome_some, true_iff] at ht
        simp only [Option.isSome_some, true_iff]
        intro x hx
        simp only [List.mem_append] at hx
        rcases hx with (hx | hx) | hx
        · exact hl x hx
        · exact hs x hx
        · exact ht x hx

theorem val_min_sub {F : Type} (A : float_arith F) (val : F → ℚ)
    (hsub : ∀ a b, val (A.sub a b) = val a - val b)
    (hlt : ∀ a b, A.lt a b = true ↔ val a < val b) (s m M : F) :
    val (A.min (A.sub s m) M) = min (val s - val m) (val M) := by
  unfold float_arith.min
  cases hc : A.lt M (A.sub s m) with
  | true =>
    have h1 := (hlt _ _).mp hc
    rw [hsub] at h1
    simp only [if_true]
    exact (min_eq_right (le_of_lt h1)).symm
  | false =>
    have h1 : ¬ val M < val (A.sub s m) := by
      intro h2
      rw [(hlt _ _).mpr h2] at hc
      exact absurd hc (by simp)
    rw [hsub] at h1
    simp only [Bool.false_eq_true, if_false, hsub]
    exact (min_eq_left (not_lt.mp h1)).symm

theorem adjusted_by_clamped {X : Externals} (A : float_arith X.float) (val : X.float → ℚ)
    (hsub : ∀ a b, val (A.sub a b) = val a - val b)
    (hlt : ∀ a b, A.lt a b = true ↔ val a < val b)
    (M : X.float) (hM : 0 ≤ val M) (before after : Location X)
    (h : adjusted_by A M before after) : clamped_within val M before after := by
  obtain ⟨m, hmem, hall, rfl⟩ := h
  have hle : ∀ e ∈ before.path_edges, val m.score ≤ val e.score := by
    intro e he
    have h1 := hall e he
    have h2 : ¬ val e.score < val m.score := by
      intro hlt'
      rw [(hlt _ _).mpr hlt'] at h1
      exact absurd h1 (by simp)
    exact not_lt.mp h2
  have hval : ∀ e : PathEdge X,
      val (A.min (A.sub e.score m.score) M) = min (val e.score - val m.score) (val M) :=
    fun e => val_min_sub A val hsub hlt e.score m.score M
  have hzero : val (A.min (A.sub m.score m.score) M) = 0 := by
    rw [hval m]
    simp [hM]
  refine ⟨rfl, ?_, ?_, ?_, ?_⟩
  · simp [List.map_map, Function.comp_def]
  · intro e he
    simp only [List.mem_map] at he
    obtain ⟨e', he', rfl⟩ := he
    simp only
    rw [hval e']
    exact ⟨le_min (sub_nonneg.mpr (hle e' he')) hM, min_le_right _ _⟩
  · exact ⟨{ m with score := A.min (A.sub m.score m.score) M },
      List.mem_map.mpr ⟨m, hmem, rfl⟩, hzero⟩
  · intro hlen e he
    obtain ⟨a, ha⟩ := List.length_eq_one.mp hlen
    rw [ha] at hmem
    simp only [List.mem_singleton] at hmem
    subst hmem
    simp only [ha, List.map_cons, List.map_nil, List.mem_singleton] at he
    rw [he]
    exact hzero

theorem binary32_lt_irrefl (a : binary32) : binary32_arith.lt a a = false := by
  cases a <;> simp [binary32_arith, binary32.lt]

theorem binary32_lt_trans (a b c : binary32) :
    binary32_arith.lt a b = true → binary32_arith.lt b c = true →
      binary32_arith.lt a c = true := by
  cases a <;> cases b <;> cases c <;> simp [binary32_arith, binary32.lt] <;>
    first
    | exact lt_trans
    | (intros; simp_all)

theorem binary32_literal_43200 :
    binary32_arith.literal 43200 = .finite false 43200 0 := by
  decide

theorem binary32_lt_finite (s : Bool) (m : Nat) (e : Int) (t : Bool) (n : Nat) (f : Int) :
    binary32_arith.lt (.finite s m e) (.finite t n f) =
      decide (binary32.value s m e < binary32.value t n f) := rfl

/-- In single precision the location with the scores 1000 and `2 ^ -60` comes back with
the scores 1000 and 0: the difference `1000 - 2 ^ -60` is rounded to 1000. -/
theorem adjust_location_binary32 :
    adjust_location binary32_arith (some (binary32_arith.literal 43200)) binary32_location =
        some ⟨0, [⟨1, .finite false 16384000 (-14)⟩, ⟨2, .finite false 0 0⟩]⟩ ∧
      binary32.value false 16384000 (-14) = 1000 := by
  have hsub1 : binary32_arith.sub (.finite false 1000 0) (.finite false 1 (-60)) =
      .finite false 16384000 (-14) := by decide
  have hsub2 : binary32_arith.sub (.finite false 1 (-60)) (.finite false 1 (-60)) =
      .finite false 0 0 := by decide
  have hlt1 : binary32_arith.lt (.finite false 1 (-60)) (.finite false 1000 0) = true := by
    rw [binary32_lt_finite]
    norm_num [binary32.value]
  have hlt2 : binary32_arith.lt (.finite false 43200 0) (.finite false 16384000 (-14))
      = false := by
    rw [binary32_lt_finite]
    norm_num [binary32.value]
  have hlt3 : binary32_arith.lt (.finite false 43200 0) (.finite false 0 0) = false := by
    rw [binary32_lt_finite]
    norm_num [binary32.value]
  constructor
  · simp only [adjust_location, min_element, for_each, adjust_edge, binary32_location,
      List.foldl_cons, List.foldl_nil, binary32_literal_43200, hlt1, if_true, hsub1, hsub2,
      hlt2, hlt3, Bool.false_eq_true, if_false]
  · norm_num [binary32.value]

/-- In single precision `0.3f - 0.1f` is `13421774 * 2 ^ -26`, the float next above
`0.2f`. -/
theorem adjust_location_binary32_tenths :
    adjust_location binary32_arith (some (binary32_arith.literal 43200))
        binary32_location_tenths =
      some ⟨0, [⟨1, .finite false 13421774 (-26)⟩, ⟨2, .finite false 0 0⟩]⟩ := by
  have hsub1 : binary32_arith.sub (.finite false 10066330 (-25))
      (.finite false 13421773 (-27)) = .finite false 13421774 (-26) := by decide
  have hsub2 : binary32_arith.sub (.finite false 13421773 (-27))
      (.finite false 13421773 (-27)) = .finite false 0 0 := by decide
  have hlt1 : binary32_arith.lt (.finite false 13421773 (-27))
      (.finite false 10066330 (-25)) = true := by
    rw [binary32_lt_finite]
    norm_num [binary32.value]
  have hlt2 : binary32_arith.lt (.finite false 43200 0) (.finite false 13421774 (-26))
      = false := by
    rw [binary32_lt_finite]
    norm_num [binary32.value]
  have hlt3 : binary32_arith.lt (.finite false 43200 0) (.finite false 0 0) = false := by
    rw [binary32_lt_finite]
    norm_num [binary32.value]
  simp only [adjust_location, min_element, for_each, adjust_edge, binary32_location_tenths,
    List.foldl_cons, List.foldl_nil, binary32_literal_43200, hlt1, if_true, hsub1, hsub2,
    hlt2, hlt3, Bool.false_eq_true, if_false]

/-- C1: with the scores taken as exact rationals (`val` reads a float as a rational, and
the literals, the subtraction and the comparison are exact under it), for a request whose
costing has an entry `M` in the max-score table and whose locations, sources and targets
all have a candidate with a non-negative score, `adjust_scores` returns, and each of the
three lists comes back with the same locations and candidates in the same order, every
score of every location lying between 0 and `M`, every location having a candidate with
score 0 (so the least adjusted score is 0), and a location with a single candidate having
score 0. -/
theorem adjust_scores_clamps {X : Externals} (A : float_arith X.float) (val : X.float → ℚ)
    (hlit : ∀ n, val (A.literal n) = n)
    (hsub : ∀ a b, val (A.sub a b) = val a - val b)
    (hlt : ∀ a b, A.lt a b = true ↔ val a < val b)
    (request : valhalla_request_t X) (M : X.float)
    (hM : kMaxScores_find A (Costing_Name request.options.costing) = some M)
    (h : ∀ location ∈ request.options.locations ++ request.options.sources ++
        request.options.targets,
      ∃ e ∈ location.path_edges, 0 ≤ val e.score) :
    ∃ request', adjust_scores A request = some request' ∧
      List.Forall₂ (clamped_within val M)
        request.options.locations request'.options.locations ∧
      List.Forall₂ (clamped_within val M)
        request.options.sources request'.options.sources ∧
      List.Forall₂ (clamped_within val M)
        request.options.targets request'.options.targets := by
  have hirr : ∀ a, A.lt a a = false := by
    intro a
    cases hc : A.lt a a with
    | false => rfl
    | true => exact absurd ((hlt a a).mp hc) (lt_irrefl _)
  have htrans : ∀ a b c, A.lt a b = true → A.lt b c = true → A.lt a c = true :=
    fun a b c hab hbc => (hlt a c).mpr (lt_trans ((hlt a b).mp hab) ((hlt b c).mp hbc))
  have hMeq : M = A.literal (spec_max_score request.options.costing) := by
    rw [kMaxScores_find_Costing_Name] at hM
    exact (Option.some.inj hM).symm
  have hM0 : 0 ≤ val M := by
    rw [hMeq, hlit]
    exact Nat.cast_nonneg _
  have hsome : (adjust_scores A request).isSome = true := by
    rw [adjust_scores_isSome_iff]
    intro location hl hnil
    obtain ⟨e, he, _⟩ := h location hl
    rw [hnil] at he
    simp at he
  obtain ⟨request', hreq⟩ := Option.isSome_iff_exists.mp hsome
  obtain ⟨hl, hs, ht, _, _, _⟩ := adjust_scores_eq_some A request request' hreq
  rw [← hMeq] at hl hs ht
  have key : ∀ l l' : List (Location X), for_each (adjust_location A (some M)) l = some l' →
      List.Forall₂ (clamped_within val M) l l' := fun l l' hfe =>
    List.Forall₂.imp (fun before after hba => adjusted_by_clamped A val hsub hlt M hM0 before after hba)
      (for_each_adjust_location A hirr htrans M l l' hfe)
  exact ⟨request', hreq, key _ _ hl, key _ _ hs, key _ _ ht⟩

/-- Witness of C1 on the example route request, under exact rational arithmetic. -/
theorem adjust_scores_clamps_witness :
    ∃ request', adjust_scores exact_arith (example_request "route") = some request' ∧
      List.Forall₂ (clamped_within id (exact_arith.literal 43200))
        (example_request "route").options.locations request'.options.locations ∧
      List.Forall₂ (clamped_within id (exact_arith.literal 43200))
        (example_request "route").options.sources request'.options.sources ∧
      List.Forall₂ (clamped_within id (exact_arith.literal 43200))
        (example_request "route").options.targets request'.options.targets :=
  @adjust_scores_clamps example_externals exact_arith id (fun _ => rfl) (fun _ _ => rfl)
    (fun a b => by simp [exact_arith]) (example_request "route") (exact_arith.literal 43200) rfl
    (by
      intro location hl
      simp only [example_request, example_options, List.append_nil, List.mem_cons,
        List.mem_singleton, List.not_mem_nil, or_false] at hl
      rcases hl with rfl | rfl
      · exact ⟨⟨8, 10⟩, by simp, by norm_num⟩
      · exact ⟨⟨3, 4⟩, by simp, by norm_num⟩)

/-- C2: for any arithmetic of `float` whose `<` is irreflexive and transitive,
`adjust_scores` returns exactly when every location of the three lists has a candidate;
the table gives 43200 for auto, auto_shorter, bus, hov and truck, 14400 for motor_scooter
and transit, 7200 for bicycle, multimodal and pedestrian; and when it returns, each of the
three lists has the same locations in the same order, each location having every score `s`
replaced by the smaller of `s - m` and `M`, computed in `float`, with `m` the score of a
candidate of that location before the call that no candidate has a smaller score than,
and `M` the table entry of the costing, the candidates being the same in number and
order, and the rest of the request is unchanged; where the subtraction and the comparison
are exact, the new score is `min (s - m) M` as a rational. -/
theorem adjust_scores_replaces {X : Externals} (A : float_arith X.float)
    (hirr : ∀ a, A.lt a a = false)
    (htrans : ∀ a b c, A.lt a b = true → A.lt b c = true → A.lt a c = true)
    (request : valhalla_request_t X) :
    ((adjust_scores A request).isSome = true ↔
      ∀ location ∈ request.options.locations ++ request.options.sources ++
          request.options.targets,
        location.path_edges ≠ []) ∧
    (∀ c, kMaxScores_find A (Costing_Name c) = some (A.literal (spec_max_score c))) ∧
    (∀ val : X.float → ℚ, (∀ a b, val (A.sub a b) = val a - val b) →
      (∀ a b, A.lt a b = true ↔ val a < val b) →
      ∀ s m M, val (A.min (A.sub s m) M) = min (val s - val m) (val M)) ∧
    ∀ request', adjust_scores A request = some request' →
      List.Forall₂ (adjusted_by A (A.literal (spec_max_score request.options.costing)))
        request.options.locations request'.options.locations ∧
      List.Forall₂ (adjusted_by A (A.literal (spec_max_score request.options.costing)))
        request.options.sources request'.options.sources ∧
      List.Forall₂ (adjusted_by A (A.literal (spec_max_score request.options.costing)))
        request.options.targets request'.options.targets ∧
      request'.options.costing = request.options.costing ∧
      request'.options.action = request.options.action ∧
      request'.document = request.document := by
  refine ⟨adjust_scores_isSome_iff A request, kMaxScores_find_Costing_Name A,
    fun val hsub hlt s m M => val_min_sub A val hsub hlt s m M, ?_⟩
  intro request' h
  obtain ⟨hl, hs, ht, hc, ha, hd⟩ := adjust_scores_eq_some A request request' h
  exact ⟨for_each_adjust_location A hirr htrans _ _ _ hl,
    for_each_adjust_location A hirr htrans _ _ _ hs,
    for_each_adjust_location A hirr htrans _ _ _ ht, hc, ha, hd⟩

/-- Witness of C2 on the example route request, under exact rational arithmetic. -/
theorem adjust_scores_replaces_witness :
    adjust_scores exact_arith (example_request "route") =
        some { example_request "route" with options := example_options_adjusted } ∧
      List.Forall₂ (adjusted_by exact_arith (exact_arith.literal 43200))
        example_options.locations example_options_adjusted.locations :=
  have h : adjust_scores exact_arith (example_request "route") =
      some { example_request "route" with options := example_options_adjusted } := by
    simp [adjust_scores, example_request, example_options, example_options_adjusted, for_each,
      adjust_location, min_element, adjust_edge, kMaxScores_find_Costing_Name, spec_max_score,
      exact_arith]
    norm_num
  ⟨h, ((@adjust_scores_replaces example_externals exact_arith (fun a => by simp [exact_arith])
    (fun a b c => by
      simp only [exact_arith, decide_eq_true_eq]
      exact lt_trans)
    (example_request "route")).2.2.2
    { example_request "route" with options := example_options_adjusted } h).1⟩

/-! ## Lemmas on the original indices -/

theorem tag_locations_eq (optimal_order : List Nat) (hlen : optimal_order.length < SIZE_RANGE) :
    ∀ (locations : List TripLocation) (start : Nat),
      start + locations.length ≤ optimal_order.length →
      tag_locations optimal_order locations start =
        some (spec_tag_locations optimal_order start locations, start + locations.length,
          List.range' start locations.length)
  | [], start, _ => by simp [tag_locations, spec_tag_locations]
  | l :: ls, start, h => by
    simp only [List.length_cons] at h
    have hlt : start < optimal_order.length := by omega
    have hmod : (start + 1) % SIZE_RANGE = start + 1 := Nat.mod_eq_of_lt (by omega)
    have ih := tag_locations_eq optimal_order hlen ls (start + 1) (by omega)
    have hget : optimal_order[start]? = some optimal_order[start] :=
      List.getElem?_eq_getElem hlt
    simp only [tag_locations, hget, hmod, ih, spec_tag_locations, List.length_cons,
      List.range'_succ]
    have e : start + 1 + ls.length = start + (ls.length + 1) := by omega
    rw [e]

theorem spec_tag_locations_length (optimal_order : List Nat) :
    ∀ (locations : List TripLocation) (start : Nat),
      (spec_tag_locations optimal_order start locations).length = locations.length
  | [], _ => rfl
  | _ :: ls, start => by
    simp [spec_tag_locations, spec_tag_locations_length optimal_order ls (start + 1)]

theorem spec_tag_locations_getElem? (optimal_order : List Nat) :
    ∀ (locations : List TripLocation) (start j : Nat),
      (spec_tag_locations optimal_order start locations)[j]? =
        (locations[j]?).map (fun l => { l with original_index := optimal_order[start + j]? })
  | [], _, _ => by simp [spec_tag_locations]
  | l :: ls, start, 0 => by simp [spec_tag_locations]
  | l :: ls, start, j + 1 => by
    simp only [spec_tag_locations, List.getElem?_cons_succ]
    rw [spec_tag_locations_getElem? optimal_order ls (start + 1) j]
    have e : start + 1 + j = start + (j + 1) := by omega
    rw [e]

theorem tag_trippaths_eq (optimal_order : List Nat) (hlen : optimal_order.length < SIZE_RANGE) :
    ∀ (legs : List TripPath) (start : Nat),
      (∀ t ∈ legs, t.location ≠ []) →
      (legs ≠ [] → start + leg_steps legs < optimal_order.length) →
      tag_trippaths optimal_order legs start =
        some (spec_tag_trippaths optimal_order start legs, spec_reads start legs)
  | [], start, _, _ => by simp [tag_trippaths, spec_tag_trippaths, spec_reads]
  | t :: ts, start, hne, hb => by
    have hb' := hb (by simp)
    simp only [leg_steps, List.map_cons, List.sum_cons] at hb'
    have hk : 0 < t.location.length :=
      List.length_pos.mpr (hne t (List.mem_cons_self _ _))
    have hloc := tag_locations_eq optimal_order hlen t.location start (by omega)
    have hdec : (start + t.location.length + (SIZE_RANGE - 1)) % SIZE_RANGE
        = start + (t.location.length - 1) := by
      have h1 : start + t.location.length + (SIZE_RANGE - 1)
          = (start + (t.location.length - 1)) + SIZE_RANGE := by
        have : 0 < SIZE_RANGE := by decide
        omega
      rw [h1, Nat.add_mod_right]
      exact Nat.mod_eq_of_lt (by omega)
    have ih := tag_trippaths_eq optimal_order hlen ts (start + (t.location.length - 1))
      (fun t' ht' => hne t' (List.mem_cons_of_mem _ ht'))
      (fun _ => by
        simp only [leg_steps]
        omega)
    simp only [tag_trippaths, hloc, hdec, ih, spec_tag_trippaths, spec_reads]

theorem spec_tag_trippaths_length (optimal_order : List Nat) :
    ∀ (legs : List TripPath) (start : Nat),
      (spec_tag_trippaths optimal_order start legs).length = legs.length
  | [], _ => rfl
  | t :: ts, start => by
    simp [spec_tag_trippaths, spec_tag_trippaths_length optimal_order ts]

theorem leg_offset_zero (legs : List TripPath) : leg_offset legs 0 = 0 := by
  simp [leg_offset, leg_steps]

theorem leg_offset_cons_succ (t : TripPath) (ts : List TripPath) (i : Nat) :
    leg_offset (t :: ts) (i + 1) = (t.location.length - 1) + leg_offset ts i := by
  simp [leg_offset, leg_steps]

theorem leg_offset_succ :
    ∀ (legs : List TripPath) (i : Nat) (t : TripPath), legs[i]? = some t →
      leg_offset legs (i + 1) = leg_offset legs i + (t.location.length - 1)
  | [], _, _, h => by simp at h
  | t0 :: ts, 0, t, h => by
    simp only [List.getElem?_cons_zero, Option.some.injEq] at h
    subst h
    rw [leg_offset_cons_succ, leg_offset_zero, leg_offset_zero]
    omega
  | t0 :: ts, i + 1, t, h => by
    simp only [List.getElem?_cons_succ] at h
    rw [leg_offset_cons_succ, leg_offset_cons_succ, leg_offset_succ ts i t h]
    omega

theorem leg_offset_le :
    ∀ (legs : List TripPath) (i : Nat) (t : TripPath), legs[i]? = some t →
      leg_offset legs i + (t.location.length - 1) ≤ leg_steps legs
  | [], _, _, h => by simp at h
  | t0 :: ts, 0, t, h => by
    simp only [List.getElem?_cons_zero, Option.some.injEq] at h
    subst h
    rw [leg_offset_zero]
    simp [leg_steps]
  | t0 :: ts, i + 1, t, h => by
    simp only [List.getElem?_cons_succ] at h
    have ih := leg_offset_le ts i t h
    rw [leg_offset_cons_succ]
    simp only [leg_steps, List.map_cons, List.sum_cons] at ih ⊢
    omega

theorem spec_tag_trippaths_getElem? (optimal_order : List Nat) :
    ∀ (legs : List TripPath) (start i : Nat),
      (spec_tag_trippaths optimal_order start legs)[i]? =
        (legs[i]?).map (fun t =>
          { t with location :=
              spec_tag_locations optimal_order (start + leg_offset legs i) t.location })
  | [], _, _ => by simp [spec_tag_trippaths]
  | t :: ts, start, 0 => by simp [spec_tag_trippaths, leg_offset_zero]
  | t :: ts, start, i + 1 => by
    simp only [spec_tag_trippaths, List.getElem?_cons_succ]
    rw [spec_tag_trippaths_getElem? optimal_order ts (start + (t.location.length - 1)) i,
      leg_offset_cons_succ, Nat.add_assoc]

theorem mem_spec_reads :
    ∀ (legs : List TripPath) (start : Nat), (∀ t ∈ legs, t.location ≠ []) → legs ≠ [] →
      ∀ p, p ∈ spec_reads start legs ↔ start ≤ p ∧ p ≤ start + leg_steps legs
  | [], _, _, h => absurd rfl h
  | t :: ts, start, hne, _ => by
    intro p
    have hk : 0 < t.location.length :=
      List.length_pos.mpr (hne t (List.mem_cons_self _ _))
    simp only [spec_reads, List.mem_append, List.mem_range'_1, leg_steps, List.map_cons,
      List.sum_cons]
    cases ts with
    | nil =>
      simp only [spec_reads, List.not_mem_nil, or_false, List.map_nil, List.sum_nil]
      omega
    | cons t' ts' =>
      have ih := mem_spec_reads (t' :: ts') (start + (t.location.length - 1))
        (fun x hx => hne x (List.mem_cons_of_mem _ hx)) (by simp) p
      rw [ih]
      simp only [leg_steps, List.map_cons, List.sum_cons]
      omega

/-- C10: in the loop of the optimized_route case, started at `order_index = 0` on trip paths
that all have a location and with `optimal_order` long enough for every read, the `j`-th
location of the `i`-th trip path is assigned `optimal_order[j + leg_offset legs i]`, the
offset being the sum of `k_m - 1` over the earlier trip paths; the last location of a
trip path and the first location of the next one get the same index; and the positions of
`optimal_order` that are read are exactly `0, ..., leg_steps legs`. -/
theorem optimized_route_original_index (optimal_order : List Nat) (legs : List TripPath)
    (hlen : optimal_order.length < SIZE_RANGE)
    (hne : ∀ t ∈ legs, t.location ≠ [])
    (hb : legs ≠ [] → leg_steps legs < optimal_order.length) :
    ∃ legs' reads, tag_trippaths optimal_order legs 0 = some (legs', reads) ∧
      legs'.length = legs.length ∧
      (∀ i j t l, legs[i]? = some t → t.location[j]? = some l →
        j + leg_offset legs i < optimal_order.length ∧
        ∃ t', legs'[i]? = some t' ∧ t'.node = t.node ∧
          t'.location.length = t.location.length ∧
          t'.location[j]? =
            some { l with original_index := optimal_order[j + leg_offset legs i]? }) ∧
      (∀ i t t', legs'[i]? = some t → legs'[i + 1]? = some t' →
        ∃ v, (t.location[t.location.length - 1]?).bind (fun l => l.original_index) = some v ∧
          (t'.location[0]?).bind (fun l => l.original_index) = some v) ∧
      (legs ≠ [] → ∀ p, p ∈ reads ↔ p ≤ leg_steps legs) := by
  have htag := tag_trippaths_eq optimal_order hlen legs 0 hne (by simpa using hb)
  have hin : ∀ i j t, legs[i]? = some t → j < t.location.length →
      j + leg_offset legs i < optimal_order.length := by
    intro i j t hi hj
    have h1 := leg_offset_le legs i t hi
    have h2 := hb (by rintro rfl; simp at hi)
    omega
  refine ⟨_, _, htag, spec_tag_trippaths_length _ _ _, ?_, ?_, ?_⟩
  · intro i j t l hi hj
    have hjlt : j < t.location.length := by
      obtain ⟨h, _⟩ := List.getElem?_eq_some_iff.mp hj
      exact h
    refine ⟨hin i j t hi hjlt,
      { t with location := spec_tag_locations optimal_order (leg_offset legs i) t.location },
      ?_, rfl, ?_, ?_⟩
    · rw [spec_tag_trippaths_getElem?, hi]
      simp
    · simp [spec_tag_locations_length]
    · simp only [spec_tag_locations_getElem?, hj, Option.map_some']
      rw [Nat.add_comm]
  · intro i t t' hi hi'
    rw [spec_tag_trippaths_getElem?] at hi hi'
    cases h0 : legs[i]? with
    | none => simp [h0] at hi
    | some t0 =>
      cases h1 : legs[i + 1]? with
      | none => simp [h1] at hi'
      | some t1 =>
        simp only [h0, Option.map_some', Option.some.injEq, Nat.zero_add] at hi
        simp only [h1, Option.map_some', Option.some.injEq, Nat.zero_add] at hi'
        subst hi
        subst hi'
        have hk0 : 0 < t0.location.length :=
          List.length_pos.mpr (hne t0 (List.getElem?_mem h0))
        have hk1 : 0 < t1.location.length :=
          List.length_pos.mpr (hne t1 (List.getElem?_mem h1))
        have hoff := leg_offset_succ legs i t0 h0
        have hb1 := hin (i + 1) 0 t1 h1 hk1
        have hlast : t0.location[t0.location.length - 1]? =
            some (t0.location[t0.location.length - 1]) :=
          List.getElem?_eq_getElem (by omega)
        have hfirst : t1.location[0]? = some (t1.location[0]) :=
          List.getElem?_eq_getElem hk1
        obtain ⟨v, hv⟩ : ∃ v, optimal_order[leg_offset legs (i + 1)]? = some v :=
          ⟨_, List.getElem?_eq_getElem (by omega)⟩
        refine ⟨v, ?_, ?_⟩
        · simp only [spec_tag_locations_length, spec_tag_locations_getElem?, hlast,
            Option.map_some', Option.some_bind]
          rw [← hoff]
          exact hv
        · simp only [spec_tag_locations_getElem?, hfirst, Option.map_some', Option.some_bind,
            Nat.add_zero]
          exact hv
  · intro hlegs p
    rw [mem_spec_reads legs 0 hne hlegs p]
    omega

/-- Witness of C10 on `example_legs` with the order `[2, 0, 1]`. -/
theorem optimized_route_original_index_witness :
    ∃ legs' reads, tag_trippaths [2, 0, 1] example_legs 0 = some (legs', reads) ∧
      legs'.length = example_legs.length ∧
      (∀ i j t l, example_legs[i]? = some t → t.location[j]? = some l →
        j + leg_offset example_legs i < [2, 0, 1].length ∧
        ∃ t', legs'[i]? = some t' ∧ t'.node = t.node ∧
          t'.location.length = t.location.length ∧
          t'.location[j]? =
            some { l with original_index := [2, 0, 1][j + leg_offset example_legs i]? }) ∧
      (∀ i t t', legs'[i]? = some t → legs'[i + 1]? = some t' →
        ∃ v, (t.location[t.location.length - 1]?).bind (fun l => l.original_index) = some v ∧
          (t'.location[0]?).bind (fun l => l.original_index) = some v) ∧
      (example_legs ≠ [] → ∀ p, p ∈ reads ↔ p ≤ leg_steps example_legs) :=
  optimized_route_original_index [2, 0, 1] example_legs (by decide) (by decide) (by decide)

theorem spec_tag_locations_map_original_index (optimal_order : List Nat) :
    ∀ (locations : List TripLocation) (start : Nat),
      (spec_tag_locations optimal_order start locations).map (fun l => l.original_index) =
        (List.range' start locations.length).map (fun p => optimal_order[p]?)
  | [], _ => rfl
  | l :: ls, start => by
    simp [spec_tag_locations, List.range'_succ,
      spec_tag_locations_map_original_index optimal_order ls (start + 1)]

theorem spec_tag_locations_drop_one (optimal_order : List Nat) :
    ∀ (locations : List TripLocation) (start : Nat), locations ≠ [] →
      ((spec_tag_locations optimal_order start locations).drop 1).map
          (fun l => l.original_index) =
        (List.range' (start + 1) (locations.length - 1)).map (fun p => optimal_order[p]?)
  | [], _, h => absurd rfl h
  | l :: ls, start, _ => by
    simp [spec_tag_locations, spec_tag_locations_map_original_index optimal_order ls (start + 1)]

theorem spec_tag_trippaths_tails (optimal_order : List Nat) :
    ∀ (legs : List TripPath) (start : Nat), (∀ t ∈ legs, t.location ≠ []) →
      (spec_tag_trippaths optimal_order start legs).flatMap
          (fun t => (t.location.drop 1).map (fun l => l.original_index)) =
        (List.range' (start + 1) (leg_steps legs)).map (fun p => optimal_order[p]?)
  | [], _, _ => by simp [spec_tag_trippaths, leg_steps]
  | t :: ts, start, hne => by
    have hk : 0 < t.location.length :=
      List.length_pos.mpr (hne t (List.mem_cons_self _ _))
    have ih := spec_tag_trippaths_tails optimal_order ts (start + (t.location.length - 1))
      (fun x hx => hne x (List.mem_cons_of_mem _ hx))
    have hd := spec_tag_locations_drop_one optimal_order t.location start
      (hne t (List.mem_cons_self _ _))
    have hsplit : List.range' (start + 1) (leg_steps (t :: ts)) =
        List.range' (start + 1) (t.location.length - 1) ++
          List.range' (start + (t.location.length - 1) + 1) (leg_steps ts) := by
      have e1 : start + (t.location.length - 1) + 1 = start + 1 + (t.location.length - 1) := by
        omega
      rw [e1, List.range'_append_1]
      simp only [leg_steps, List.map_cons, List.sum_cons]
      congr 1
      omega
    simp only [spec_tag_trippaths, List.flatMap_cons, hd, ih, hsplit, List.map_append]

theorem map_getElem?_range (l : List Nat) :
    (List.range' 0 l.length).map (fun p => l[p]?) = l.map some := by
  apply List.ext_getElem?
  intro i
  by_cases h : i < l.length
  · simp [List.getElem?_map, List.getElem?_range', h]
  · simp [List.getElem?_map, List.getElem?_range', h, List.getElem?_eq_none (not_lt.mp h)]
    exact not_lt.mp h

theorem junctions_once_spec (optimal_order : List Nat) (legs : List TripPath)
    (hlegs : legs ≠ []) (hne : ∀ t ∈ legs, t.location ≠ []) :
    original_indices_junctions_once (spec_tag_trippaths optimal_order 0 legs) =
      (List.range' 0 (leg_steps legs + 1)).map (fun p => optimal_order[p]?) := by
  cases legs with
  | nil => exact absurd rfl hlegs
  | cons t ts =>
    have hk : 0 < t.location.length :=
      List.length_pos.mpr (hne t (List.mem_cons_self _ _))
    have htl := spec_tag_trippaths_tails optimal_order ts (0 + (t.location.length - 1))
      (fun x hx => hne x (List.mem_cons_of_mem _ hx))
    have hsplit : List.range' 0 (leg_steps (t :: ts) + 1) =
        List.range' 0 t.location.length ++
          List.range' (0 + (t.location.length - 1) + 1) (leg_steps ts) := by
      have e1 : 0 + (t.location.length - 1) + 1 = 0 + t.location.length := by omega
      rw [e1, List.range'_append_1]
      simp only [leg_steps, List.map_cons, List.sum_cons]
      congr 1
      omega
    simp only [spec_tag_trippaths, original_indices_junctions_once,
      spec_tag_locations_map_original_index, htl, hsplit, List.map_append]

/-- C4, amended: for trip paths that all have a location and that chain over the `n`
input locations (the sum of `k - 1` over them is `n - 1`), with `optimal_order` a
permutation of `0, ..., n-1`, the loop of the optimized_route case returns, and the
original indices it assigns, the first location of every trip path after the first left
out, are `optimal_order` in order: as a multiset they are `0, ..., n-1`, each once. -/
theorem optimized_route_indices_once (optimal_order : List Nat) (legs : List TripPath)
    (n : Nat) (hperm : optimal_order.Perm (List.range n)) (hn : n < SIZE_RANGE)
    (hlegs : legs ≠ []) (hne : ∀ t ∈ legs, t.location ≠ [])
    (hsum : leg_steps legs + 1 = n) :
    ∃ legs' reads, tag_trippaths optimal_order legs 0 = some (legs', reads) ∧
      original_indices_junctions_once legs' = optimal_order.map some ∧
      (original_indices_junctions_once legs').Perm ((List.range n).map some) := by
  have hlen : optimal_order.length = n := by
    rw [hperm.length_eq, List.length_range]
  have htag := tag_trippaths_eq optimal_order (by omega) legs 0 hne (fun _ => by omega)
  have hj : original_indices_junctions_once (spec_tag_trippaths optimal_order 0 legs) =
      optimal_order.map some := by
    rw [junctions_once_spec optimal_order legs hlegs hne, hsum, ← hlen]
    exact map_getElem?_range optimal_order
  exact ⟨_, _, htag, hj, hj ▸ hperm.map some⟩

/-- Witness of the amended C4 on `example_legs` with the order `[2, 0, 1]`. -/
theorem optimized_route_indices_once_witness :
    ∃ legs' reads, tag_trippaths [2, 0, 1] example_legs 0 = some (legs', reads) ∧
      original_indices_junctions_once legs' = [some 2, some 0, some 1] ∧
      (original_indices_junctions_once legs').Perm ((List.range 3).map some) :=
  optimized_route_indices_once [2, 0, 1] example_legs 3 (by decide) (by decide) (by decide)
    (by decide) (by decide)

/-- Counterexample to C4 as stated: with three input locations, the order `[2, 0, 1]` and
the two trip paths of `example_legs`, the loop assigns the indices 2, 0, 0, 1, so the
index 0 of the location where the two trip paths meet appears twice. -/
theorem optimized_route_multiset_counterexample :
    [2, 0, 1].Perm (List.range 3) ∧
      tag_trippaths [2, 0, 1] example_legs 0 = some (example_legs_tagged, [0, 1, 1, 2]) ∧
      original_indices example_legs_tagged = [some 2, some 0, some 0, some 1] ∧
      ¬ (original_indices example_legs_tagged).Perm ((List.range 3).map some) := by
  refine ⟨by decide, by decide, by decide, ?_⟩
  intro h
  have := h.length_eq
  revert this
  decide

/-! ## work -/

theorem tag_locations_shape (optimal_order : List Nat) :
    ∀ (locations : List TripLocation) (start : Nat) (locations' : List TripLocation)
      (stop : Nat) (reads : List Nat),
      tag_locations optimal_order locations start = some (locations', stop, reads) →
      locations'.map (fun l => l.ll) = locations.map (fun l => l.ll)
  | [], _, _, _, _, h => by
    simp only [tag_locations, Option.some.injEq, Prod.mk.injEq] at h
    rw [← h.1]
  | l :: ls, start, locations', stop, reads, h => by
    unfold tag_locations at h
    cases hget : optimal_order[start]? with
    | none => simp [hget] at h
    | some index =>
      cases hrest : tag_locations optimal_order ls ((start + 1) % SIZE_RANGE) with
      | none => simp [hget, hrest] at h
      | some r =>
        obtain ⟨rest', stop', reads'⟩ := r
        simp only [hget, hrest, Option.some.injEq, Prod.mk.injEq] at h
        have ih := tag_locations_shape optimal_order ls _ rest' stop' reads' hrest
        rw [← h.1]
        simp [ih]

theorem tag_trippaths_shape (optimal_order : List Nat) :
    ∀ (legs : List TripPath) (start : Nat) (legs' : List TripPath) (reads : List Nat),
      tag_trippaths optimal_order legs start = some (legs', reads) →
      List.Forall₂
        (fun t t' => t'.node = t.node ∧
          t'.location.map (fun l => l.ll) = t.location.map (fun l => l.ll)) legs legs'
  | [], _, _, _, h => by
    simp only [tag_trippaths, Option.some.injEq, Prod.mk.injEq] at h
    rw [← h.1]
    exact List.Forall₂.nil
  | t :: ts, start, legs', reads, h => by
    unfold tag_trippaths at h
    cases hloc : tag_locations optimal_order t.location start with
    | none => simp [hloc] at h
    | some r =>
      obtain ⟨location, stop, reads1⟩ := r
      cases hrest : tag_trippaths optimal_order ts
          ((stop + (SIZE_RANGE - 1)) % SIZE_RANGE) with
      | none => simp [hloc, hrest] at h
      | some r2 =>
        obtain ⟨rest', reads2⟩ := r2
        simp only [hloc, hrest, Option.some.injEq, Prod.mk.injEq] at h
        rw [← h.1]
        exact List.Forall₂.cons ⟨rfl, tag_locations_shape _ _ _ _ _ _ hloc⟩
          (tag_trippaths_shape optimal_order ts _ rest' reads2 hrest)

theorem tag_trippaths_length (optimal_order : List Nat) (legs legs' : List TripPath)
    (start : Nat) (reads : List Nat)
    (h : tag_trippaths optimal_order legs start = some (legs', reads)) :
    legs'.length = legs.length :=
  (tag_trippaths_shape optimal_order legs start legs' reads h).length_eq.symm

/-- C3: on a job whose first frame is `request_str` and whose last frame is
`serialized_options`, parsed without error, `work` returns for a route whose algorithm
returns `trippaths` the messages `request_str`, `serialized_options` and the serialized
trip paths in order; for an optimized route the same with the trip paths tagged by the
loop (as many, in the same order, the same but for the original indices); and for a
trace route the two frames followed by the one serialized trip path. -/
theorem work_forwards {X : Externals} (C : Collaborators X) (w : thor_worker_t X)
    (job : List String) (info : X.http_request_info_t) (interrupt_function : X.Interrupt)
    (request_str serialized_options : String) (request : valhalla_request_t X)
    (hfront : job.head? = some request_str) (hback : job.getLast? = some serialized_options)
    (hparse : C.parse request_str serialized_options = (request, .ok ())) :
    (request.options.action = .route → ∀ w' request' trippaths,
      C.route { w with interrupt := some interrupt_function } request
        = ((w', request'), .ok trippaths) →
      ∃ out, work C w job info interrupt_function = some out ∧
        out.result.intermediate = true ∧
        out.result.messages =
          request_str :: serialized_options :: trippaths.map C.SerializeAsString) ∧
    (request.options.action = .optimized_route → ∀ w' request' trippaths tagged reads,
      C.optimized_route { w with interrupt := some interrupt_function } request
        = ((w', request'), .ok trippaths) →
      tag_trippaths w'.optimal_order trippaths 0 = some (tagged, reads) →
      ∃ out, work C w job info interrupt_function = some out ∧
        out.result.intermediate = true ∧
        out.result.messages =
          request_str :: serialized_options :: tagged.map C.SerializeAsString ∧
        List.Forall₂
          (fun t t' => t'.node = t.node ∧
            t'.location.map (fun l => l.ll) = t.location.map (fun l => l.ll))
          trippaths tagged) ∧
    (request.options.action = .trace_route → ∀ w' request' trippath,
      C.trace_route { w with interrupt := some interrupt_function } request
        = ((w', request'), .ok trippath) →
      ∃ out, work C w job info interrupt_function = some out ∧
        out.result.intermediate = true ∧
        out.result.messages =
          [request_str, serialized_options, C.SerializeAsString trippath]) := by
  refine ⟨?_, ?_, ?_⟩
  · intro hact w' request' trippaths hcall
    have hw : work C w job info interrupt_function =
        some { result := ⟨true, [] ++ [request_str, serialized_options] ++
                 trippaths.map C.SerializeAsString⟩,
               worker := w', denominator := some request'.options.locations.length } := by
      simp only [work, hfront, hback, hparse, hact, hcall]
    exact ⟨_, hw, rfl, by simp⟩
  · intro hact w' request' trippaths tagged reads hcall htag
    have hw : work C w job info interrupt_function =
        some { result := ⟨true, [] ++ [request_str, serialized_options] ++
                 tagged.map C.SerializeAsString⟩,
               worker := w',
               denominator :=
                 some (max request'.options.sources.length request'.options.targets.length) } := by
      simp only [work, hfront, hback, hparse, hact, hcall, htag]
    exact ⟨_, hw, rfl, by simp, tag_trippaths_shape _ _ _ _ _ htag⟩
  · intro hact w' request' trippath hcall
    have hw : work C w job info interrupt_function =
        some { result := ⟨true, [] ++ [request_str, serialized_options] ++
                 [C.SerializeAsString trippath]⟩,
               worker := w', denominator := some (w'.trace.length / 1100) } := by
      simp only [work, hfront, hback, hparse, hact, hcall]
    exact ⟨_, hw, rfl, by simp⟩

/-- Witness of C3 with the example collaborators, on an optimized route. -/
theorem work_forwards_witness :
    ∃ out, work example_collaborators example_worker ["request", "optimized_route"] 0 ()
        = some out ∧
      out.result.intermediate = true ∧
      out.result.messages =
        "request" :: "optimized_route" ::
          example_legs_tagged.map example_collaborators.SerializeAsString ∧
      List.Forall₂
        (fun t t' => t'.node = t.node ∧
          t'.location.map (fun l => l.ll) = t.location.map (fun l => l.ll))
        example_legs example_legs_tagged :=
  (work_forwards example_collaborators example_worker ["request", "optimized_route"] 0 ()
    "request" "optimized_route" (example_request "optimized_route") rfl rfl rfl).2.1 rfl
    { example_worker with interrupt := some (), optimal_order := [2, 0, 1] }
    (example_request "optimized_route") example_legs example_legs_tagged [0, 1, 1, 2]
    rfl (by decide)

/-- C6: on a job with a first and a last frame, `work` returns the error response and
nothing else when parsing throws, when the action tag is none of the six (status 400),
and when the action's algorithm throws; the response is `jsonify_error` of the domain
error itself, and of status 499 with the text of `what()` for any other exception. -/
theorem work_returns_error_response {X : Externals} (C : Collaborators X)
    (w : thor_worker_t X) (job : List String) (info : X.http_request_info_t)
    (interrupt_function : X.Interrupt) (request_str serialized_options : String)
    (hfront : job.head? = some request_str)
    (hback : job.getLast? = some serialized_options) :
    (∀ request e, C.parse request_str serialized_options = (request, .error e) →
      work C w job info interrupt_function = some (work_catch C info w request e)) ∧
    (∀ request tag, C.parse request_str serialized_options = (request, .ok ()) →
      request.options.action = .other tag →
      work C w job info interrupt_function =
        some { result := C.jsonify_error ⟨400, none⟩ info request,
               worker := { w with interrupt := some interrupt_function },
               denominator := none }) ∧
    (∀ request w' request' e,
      C.parse request_str serialized_options = (request, .ok ()) →
      (request.options.action = .sources_to_targets ∧
          C.matrix { w with interrupt := some interrupt_function } request
            = ((w', request'), .error e)) ∨
        (request.options.action = .optimized_route ∧
          C.optimized_route { w with interrupt := some interrupt_function } request
            = ((w', request'), .error e)) ∨
        (request.options.action = .isochrone ∧
          C.isochrones { w with interrupt := some interrupt_function } request
            = ((w', request'), .error e)) ∨
        (request.options.action = .route ∧
          C.route { w with interrupt := some interrupt_function } request
            = ((w', request'), .error e)) ∨
        (request.options.action = .trace_route ∧
          C.trace_route { w with interrupt := some interrupt_function } request
            = ((w', request'), .error e)) ∨
        (request.options.action = .trace_attributes ∧
          C.trace_attributes { w with interrupt := some interrupt_function } request
            = ((w', request'), .error e)) →
      work C w job info interrupt_function = some (work_catch C info w' request' e)) ∧
    (∀ (w' : thor_worker_t X) (request : valhalla_request_t X) (c : Nat)
        (extra : Option String),
      work_catch C info w' request (.valhalla ⟨c, extra⟩) =
        { result := C.jsonify_error ⟨c, extra⟩ info request, worker := w',
          denominator := none }) ∧
    (∀ (w' : thor_worker_t X) (request : valhalla_request_t X) (kind : std_kind)
        (m : String),
      work_catch C info w' request (.std kind m) =
        { result := C.jsonify_error ⟨499, some m⟩ info request, worker := w',
          denominator := none }) := by
  refine ⟨?_, ?_, ?_, fun _ _ _ _ => rfl, fun _ _ _ _ => rfl⟩
  · intro request e hparse
    simp only [work, hfront, hback, hparse]
  · intro request tag hparse hact
    simp only [work, hfront, hback, hparse, hact, work_catch]
  · intro request w' request' e hparse hcases
    rcases hcases with ⟨hact, hcall⟩ | ⟨hact, hcall⟩ | ⟨hact, hcall⟩ | ⟨hact, hcall⟩ |
      ⟨hact, hcall⟩ | ⟨hact, hcall⟩ <;>
    simp only [work, hfront, hback, hparse, hact, hcall]

/-- Witness of C6 with the example collaborators: the matrix algorithm throws a runtime
error, and the only message returned is the error response with status 499. -/
theorem work_returns_error_response_witness :
    work example_collaborators example_worker ["request", "sources_to_targets"] 0 () =
        some (work_catch example_collaborators 0 { example_worker with interrupt := some () }
          (example_request "sources_to_targets") (.std .runtime_error "no path")) ∧
      (work_catch example_collaborators 0 { example_worker with interrupt := some () }
          (example_request "sources_to_targets") (.std .runtime_error "no path")).result
        = ⟨false, ["499:no path"]⟩ :=
  ⟨(work_returns_error_response example_collaborators example_worker
      ["request", "sources_to_targets"] 0 () "request" "sources_to_targets" rfl rfl).2.2.1
      (example_request "sources_to_targets") { example_worker with interrupt := some () }
      (example_request "sources_to_targets") (.std .runtime_error "no path") rfl
      (Or.inl ⟨rfl, rfl⟩),
    by decide⟩

theorem spec_trace_denominator_le_iff (shape_count c : Nat) :
    spec_trace_denominator shape_count ≤ c ↔ shape_count ≤ 1100 * c := by
  unfold spec_trace_denominator
  omega

/-- C5, amended: for a trace_route or trace_attributes request whose action returns with
the trace vector holding `shape_count` measurements, `work` returns and its denominator
is the integer quotient `shape_count / 1100`, rounded down; it is 2 for 2200 measurements,
and it equals the ceiling `spec_trace_denominator shape_count` exactly when `shape_count`
is a multiple of 1100. -/
theorem work_trace_denominator {X : Externals} (C : Collaborators X) (w : thor_worker_t X)
    (job : List String) (info : X.http_request_info_t) (interrupt_function : X.Interrupt)
    (request_str serialized_options : String) (request : valhalla_request_t X)
    (hfront : job.head? = some request_str) (hback : job.getLast? = some serialized_options)
    (hparse : C.parse request_str serialized_options = (request, .ok ())) :
    (request.options.action = .trace_route → ∀ w' request' trippath,
      C.trace_route { w with interrupt := some interrupt_function } request
        = ((w', request'), .ok trippath) →
      ∃ out, work C w job info interrupt_function = some out ∧ out.worker = w' ∧
        out.denominator = some (w'.trace.length / 1100) ∧
        (w'.trace.length = 2200 → out.denominator = some 2) ∧
        (out.denominator = some (spec_trace_denominator w'.trace.length) ↔
          1100 ∣ w'.trace.length)) ∧
    (request.options.action = .trace_attributes → ∀ w' request' json,
      C.trace_attributes { w with interrupt := some interrupt_function } request
        = ((w', request'), .ok json) →
      ∃ out, work C w job info interrupt_function = some out ∧ out.worker = w' ∧
        out.denominator = some (w'.trace.length / 1100) ∧
        (w'.trace.length = 2200 → out.denominator = some 2) ∧
        (out.denominator = some (spec_trace_denominator w'.trace.length) ↔
          1100 ∣ w'.trace.length)) := by
  have harith : ∀ n : Nat, (n = 2200 → some (n / 1100) = some 2) ∧
      (some (n / 1100) = some (spec_trace_denominator n) ↔ 1100 ∣ n) := by
    intro n
    refine ⟨fun h => by subst h; rfl, ?_⟩
    simp only [Option.some.injEq, spec_trace_denominator]
    omega
  refine ⟨?_, ?_⟩
  · intro hact w' request' trippath hcall
    have hw : work C w job info interrupt_function =
        some { result := ⟨true, [] ++ [request_str, serialized_options] ++
                 [C.SerializeAsString trippath]⟩,
               worker := w', denominator := some (w'.trace.length / 1100) } := by
      simp only [work, hfront, hback, hparse, hact, hcall]
    exact ⟨_, hw, rfl, rfl, (harith _).1, (harith _).2⟩
  · intro hact w' request' json hcall
    have hw : work C w job info interrupt_function =
        some { result := C.to_response_json json info request',
               worker := w', denominator := some (w'.trace.length / 1100) } := by
      simp only [work, hfront, hback, hparse, hact, hcall]
    exact ⟨_, hw, rfl, rfl, (harith _).1, (harith _).2⟩

/-- Witness of the amended C5 with the example collaborators, on a trace route. -/
theorem work_trace_denominator_witness :
    ∃ out, work example_collaborators example_worker ["request", "trace_route"] 0 ()
        = some out ∧
      out.worker = { example_worker with interrupt := some (), trace := [5] } ∧
      out.denominator = some (1 / 1100) ∧
      (1 = 2200 → out.denominator = some 2) ∧
      (out.denominator = some (spec_trace_denominator 1) ↔ 1100 ∣ 1) :=
  (work_trace_denominator example_collaborators example_worker ["request", "trace_route"] 0 ()
    "request" "trace_route" (example_request "trace_route") rfl rfl rfl).1 rfl
    { example_worker with interrupt := some (), trace := [5] } (example_request "trace_route")
    ⟨2, []⟩ rfl

/-- Counterexample to C5 as stated: a trace route whose trace vector holds one measurement
when the action finishes has denominator 0, and the ceiling of 1/1100 is 1. -/
theorem trace_denominator_truncates_counterexample :
    (work example_collaborators example_worker ["request", "trace_route"] 0 ()).map
        (fun out => (out.worker.trace.length, out.denominator)) = some (1, some 0) ∧
      spec_trace_denominator 1 = 1 := by
  constructor <;> decide

/-! ## parse_costing -/

/-- C7, amended: for a request whose costing is a name other than multimodal and transit
that the factory constructs a costing for, `parse_costing` returns the name, the active
mode is the travel mode of the costing, the slot of `mode_costing` at that mode holds the
costing, and every other slot is as it was before the call; so exactly that one slot is
populated when no slot was populated before. -/
theorem parse_costing_installs {X : Externals} (C : Collaborators X) (w : thor_worker_t X)
    (request : valhalla_request_t X) (costing : String) (cost : X.DynamicCost)
    (hc : request.document.costing = some costing)
    (hmm : costing ≠ "multimodal") (ht : costing ≠ "transit")
    (hcost : get_costing C request.document costing = .ok cost) :
    (parse_costing C w request).2 = .ok costing ∧
      (parse_costing C w request).1.mode = C.travel_mode cost ∧
      (parse_costing C w request).1.mode_costing (C.travel_mode cost).index = some cost ∧
      (∀ i, i ≠ (C.travel_mode cost).index →
        (parse_costing C w request).1.mode_costing i = w.mode_costing i) ∧
      ((∀ i, w.mode_costing i = none) →
        ∀ i, ((parse_costing C w request).1.mode_costing i).isSome = true ↔
          i = (C.travel_mode cost).index) := by
  have hp : parse_costing C w request =
      ({ w with mode := C.travel_mode cost,
                mode_costing :=
                  Function.update w.mode_costing (C.travel_mode cost).index (some cost) },
        .ok costing) := by
    simp only [parse_costing, hc, hmm, ht, or_self, if_false, hcost]
  rw [hp]
  refine ⟨rfl, rfl, by simp, ?_, ?_⟩
  · intro i hi
    simp [Function.update_noteq hi]
  · intro hempty i
    by_cases hi : i = (C.travel_mode cost).index
    · subst hi
      simp
    · simp [Function.update_noteq hi, hempty i, hi]

/-- Witness of the amended C7: an auto request on the fresh example worker. -/
theorem parse_costing_installs_witness :
    (parse_costing example_collaborators example_worker (example_request_costing "auto")).2
        = .ok "auto" ∧
      (parse_costing example_collaborators example_worker
        (example_request_costing "auto")).1.mode = TravelMode.kDrive ∧
      (parse_costing example_collaborators example_worker
        (example_request_costing "auto")).1.mode_costing TravelMode.kDrive.index
          = some "auto" ∧
      (∀ i, i ≠ TravelMode.kDrive.index →
        (parse_costing example_collaborators example_worker
          (example_request_costing "auto")).1.mode_costing i = example_worker.mode_costing i) ∧
      ((∀ i, example_worker.mode_costing i = none) →
        ∀ i, ((parse_costing example_collaborators example_worker
          (example_request_costing "auto")).1.mode_costing i).isSome = true ↔
          i = TravelMode.kDrive.index) :=
  parse_costing_installs example_collaborators example_worker (example_request_costing "auto")
    "auto" "auto" rfl (by decide) (by decide) rfl

/-- Counterexample to C7 as stated: on the example worker that has served a multimodal
request and run cleanup, `parse_costing` of an auto request returns normally and leaves
all four slots of `mode_costing` populated. -/
theorem parse_costing_one_slot_counterexample :
    (parse_costing example_collaborators example_worker_served
        (example_request_costing "auto")).2 = .ok "auto" ∧
      (parse_costing example_collaborators example_worker_served
        (example_request_costing "auto")).1.mode = TravelMode.kDrive ∧
      (List.finRange 4).map
          (parse_costing example_collaborators example_worker_served
            (example_request_costing "auto")).1.mode_costing
        = [some "auto", some "pedestrian", some "bicycle", some "transit"] := by
  refine ⟨rfl, rfl, rfl⟩

/-! ## cleanup -/

/-- C8: after `cleanup` the trace vector is empty and the A*, bidirectional A*,
multi-modal A* and isochrone generator have been cleared, as has the cache of the matcher
factory by `ClearFullCache`; with `m` the matcher factory as `ClearFullCache` leaves it,
which is when the over-committed predicate is evaluated, the graph reader is
`reader_Clear` of the reader of `m` when the predicate is true of it and is the reader of
`m`, untouched, when it is false; when `ClearFullCache` leaves the graph reader alone the
same holds of the reader as it was on entry; no other member of the worker changes. -/
theorem cleanup_clears {X : Externals} (C : Collaborators X) (w : thor_worker_t X) :
    (cleanup C w).trace = [] ∧
      (cleanup C w).astar = C.astar_Clear w.astar ∧
      (cleanup C w).bidir_astar = C.bidir_astar_Clear w.bidir_astar ∧
      (cleanup C w).multi_modal_astar = C.multi_modal_astar_Clear w.multi_modal_astar ∧
      (cleanup C w).isochrone_gen = C.isochrone_gen_Clear w.isochrone_gen ∧
      (cleanup C w).matcher_factory.cache = (C.ClearFullCache w.matcher_factory).cache ∧
      (C.OverCommitted (C.ClearFullCache w.matcher_factory).graphreader = true →
        (cleanup C w).reader = C.reader_Clear (C.ClearFullCache w.matcher_factory).graphreader) ∧
      (C.OverCommitted (C.ClearFullCache w.matcher_factory).graphreader = false →
        (cleanup C w).reader = (C.ClearFullCache w.matcher_factory).graphreader) ∧
      ((C.ClearFullCache w.matcher_factory).graphreader = w.reader →
        (C.OverCommitted w.reader = true → (cleanup C w).reader = C.reader_Clear w.reader) ∧
        (C.OverCommitted w.reader = false → (cleanup C w).reader = w.reader)) ∧
      (cleanup C w).mode = w.mode ∧ (cleanup C w).mode_costing = w.mode_costing ∧
      (cleanup C w).trace_config = w.trace_config ∧
      (cleanup C w).trace_customizable = w.trace_customizable ∧
      (cleanup C w).optimal_order = w.optimal_order ∧
      (cleanup C w).interrupt = w.interrupt := by
  unfold cleanup
  cases h : C.OverCommitted (C.ClearFullCache w.matcher_factory).graphreader
  · simp only [thor_worker_t.reader, h, Bool.false_eq_true, if_false, true_and, false_implies,
      implies_true, and_true]
    intro hsame
    rw [hsame] at h
    simp [h, hsame]
  · simp only [thor_worker_t.reader, h, if_true, true_and, implies_true, Bool.true_eq_false,
      false_implies, and_true]
    intro hsame
    rw [hsame] at h
    simp [h, hsame]

/-- Witness of C8 on the example worker, whose reader holds three tiles and is
over-committed: the reader is cleared. -/
theorem cleanup_clears_witness :
    (cleanup example_collaborators example_worker).reader = [] ∧
      (cleanup example_collaborators example_worker).trace = [] :=
  ⟨(cleanup_clears example_collaborators example_worker).2.2.2.2.2.2.1 (by decide),
    (cleanup_clears example_collaborators example_worker).1⟩

/-! ## parse_trace_config -/

theorem ptree_get_put (t : ptree) (key : String) (value : ptree_data) (key' : String) :
    (t.put key value).get key' = if key' = key then some value else t.get key' := by
  induction t with
  | nil =>
    by_cases h : key = key'
    · simp [ptree.put, ptree.get, h]
    · have h' : ¬ key' = key := fun e => h e.symm
      simp [ptree.put, ptree.get, h, h']
  | cons p rest ih =>
    obtain ⟨k, v⟩ := p
    by_cases hk : k = key
    · subst hk
      by_cases h : k = key'
      · simp [ptree.put, ptree.get, h]
      · have h' : ¬ key' = k := fun e => h e.symm
        simp [ptree.put, ptree.get, h, h']
    · by_cases h : k = key'
      · subst h
        simp [ptree.put, ptree.get, hk]
      · simp only [ptree.put, hk, if_false, ptree.get, h, ih]

theorem overlay_trace_options_frame {X : Externals} (C : Collaborators X) :
    ∀ (trace_options : List (String × X.Value)) (w : thor_worker_t X),
      (overlay_trace_options C w trace_options).1.trace_customizable = w.trace_customizable ∧
      ∀ key, ¬ (key ∈ w.trace_customizable ∧ key ∈ trace_options.map Prod.fst) →
        (overlay_trace_options C w trace_options).1.trace_config.get key =
          w.trace_config.get key
  | [], w => by simp [overlay_trace_options]
  | (name, value) :: rest, w => by
    by_cases hmem : name ∈ w.trace_customizable
    · cases hgf : C.GetFloat value with
      | ok x =>
        have ih := overlay_trace_options_frame C rest
          { w with trace_config := w.trace_config.put name (.float x) }
        simp only [overlay_trace_options, hmem, if_true, hgf]
        refine ⟨ih.1, ?_⟩
        intro key hkey
        have hne : key ≠ name := by
          rintro rfl
          exact hkey ⟨hmem, by simp⟩
        rw [ih.2 key (fun h => hkey ⟨h.1, by simp [h.2]⟩)]
        simp [ptree_get_put, hne]
      | error e =>
        cases e with
        | valhalla v => simp [overlay_trace_options, hmem, hgf]
        | std kind what => cases kind <;> simp [overlay_trace_options, hmem, hgf]
    · have ih := overlay_trace_options_frame C rest w
      simp only [overlay_trace_options, hmem, if_false]
      refine ⟨ih.1, ?_⟩
      intro key hkey
      exact ih.2 key (fun h => hkey ⟨h.1, by simp [h.2]⟩)

theorem overlay_trace_options_ok {X : Externals} (C : Collaborators X)
    (customizable : List String) :
    ∀ (trace_options : List (String × X.Value)) (floats : List (String × ℚ))
      (w : thor_worker_t X), w.trace_customizable = customizable →
      List.Forall₂ (fun p q => p.1 = q.1 ∧ C.GetFloat p.2 = .ok q.2)
        (trace_options.filter (fun p => decide (p.1 ∈ customizable))) floats →
      overlay_trace_options C w trace_options =
        ({ w with trace_config := spec_overlay w.trace_config floats }, .ok ())
  | [], floats, w, _, h => by
    simp only [List.filter_nil, List.forall₂_nil_left_iff] at h
    subst h
    simp [overlay_trace_options, spec_overlay]
  | (name, value) :: rest, floats, w, hw, h => by
    by_cases hmem : name ∈ customizable
    · simp only [List.filter_cons, hmem, decide_True, if_true] at h
      cases h with
      | cons hpq hrest =>
        rename_i q floats'
        obtain ⟨hname, hgf⟩ := hpq
        simp only at hname hgf
        have ih := overlay_trace_options_ok C customizable rest floats'
          { w with trace_config := w.trace_config.put name (.float q.2) } hw hrest
        subst hname
        have hmem' : q.1 ∈ w.trace_customizable := hw ▸ hmem
        simp only [overlay_trace_options, hmem', if_true, hgf]
        rw [ih]
        simp [spec_overlay]
    · simp only [List.filter_cons, hmem, decide_False] at h
      have ih := overlay_trace_options_ok C customizable rest floats w hw h
      have hmem' : ¬ name ∈ w.trace_customizable := hw ▸ hmem
      simp only [overlay_trace_options, hmem', if_false, ih]

/-- C9: `parse_trace_config` leaves every key of the trace configuration that is neither
`mode` nor both customizable and a name of `/trace_options` at its prior value, whatever
the request; on a request with a costing name it returns with `mode` set to that name as
the only change when the customizable set is empty or there is no `/trace_options`
object; and otherwise, when the customizable options are numbers, it returns with `mode`
set and then exactly the customizable options overlaid as floats, in order. -/
theorem parse_trace_config_overlays {X : Externals} (C : Collaborators X)
    (w : thor_worker_t X) (request : valhalla_request_t X) :
    (∀ key, key ≠ "mode" →
      ¬ (key ∈ w.trace_customizable ∧
          ∃ trace_options, request.document.trace_options = some trace_options ∧
            key ∈ trace_options.map Prod.fst) →
      (parse_trace_config C w request).1.trace_config.get key = w.trace_config.get key) ∧
    (∀ costing, request.document.costing = some costing →
      w.trace_customizable = [] ∨ request.document.trace_options = none →
      parse_trace_config C w request =
          ({ w with trace_config := w.trace_config.put "mode" (.string costing) }, .ok ()) ∧
        (parse_trace_config C w request).1.trace_config.get "mode" = some (.string costing) ∧
        ∀ key, key ≠ "mode" →
          (parse_trace_config C w request).1.trace_config.get key = w.trace_config.get key) ∧
    (∀ costing trace_options floats, request.document.costing = some costing →
      request.document.trace_options = some trace_options →
      w.trace_customizable ≠ [] →
      List.Forall₂ (fun p q => p.1 = q.1 ∧ C.GetFloat p.2 = .ok q.2)
        (trace_options.filter (fun p => decide (p.1 ∈ w.trace_customizable))) floats →
      parse_trace_config C w request =
        ({ w with trace_config :=
            spec_overlay (w.trace_config.put "mode" (.string costing)) floats }, .ok ())) := by
  refine ⟨?_, ?_, ?_⟩
  · intro key hmode hkey
    unfold parse_trace_config
    cases hc : request.document.costing with
    | none => rfl
    | some costing =>
      by_cases hempty : w.trace_customizable.isEmpty = true
      · simp [hempty, ptree_get_put, hmode]
      · cases hopts : request.document.trace_options with
        | none => simp [hempty, ptree_get_put, hmode]
        | some trace_options =>
          have hempty' : w.trace_customizable.isEmpty = false := by simpa using hempty
          have hframe := (overlay_trace_options_frame C trace_options
            { w with trace_config := w.trace_config.put "mode" (.string costing) }).2 key
            (fun h => hkey ⟨h.1, trace_options, hopts, h.2⟩)
          simp only [hempty', Bool.false_eq_true, if_false]
          rw [hframe]
          simp [ptree_get_put, hmode]
  · intro costing hc hor
    have hp : parse_trace_config C w request =
        ({ w with trace_config := w.trace_config.put "mode" (.string costing) }, .ok ()) := by
      unfold parse_trace_config
      rcases hor with hempty | hnone
      · simp [hc, hempty]
      · by_cases hempty : w.trace_customizable.isEmpty = true
        · simp [hc, hempty]
        · simp [hc, hempty, hnone]
    rw [hp]
    refine ⟨rfl, by simp [ptree_get_put], ?_⟩
    intro key hkey
    simp [ptree_get_put, hkey]
  · intro costing trace_options floats hc hopts hne hfloats
    have hempty : w.trace_customizable.isEmpty = false := by
      cases hcust : w.trace_customizable with
      | nil => exact absurd hcust hne
      | cons a l => rfl
    unfold parse_trace_config
    simp only [hc, hempty, Bool.false_eq_true, if_false, hopts]
    rw [overlay_trace_options_ok C w.trace_customizable trace_options floats
      { w with trace_config := w.trace_config.put "mode" (.string costing) } rfl hfloats]

/-- Witness of C9 with the example collaborators: of three trace options only the
customizable `search_radius` is overlaid, after `mode` is set to the costing name. -/
theorem parse_trace_config_overlays_witness :
    parse_trace_config example_collaborators example_worker example_trace_request =
        ({ example_worker with
            trace_config := [("mode", .string "bicycle"), ("search_radius", .float 35)] },
          .ok ()) ∧
      (parse_trace_config example_collaborators example_worker
          example_trace_request).1.trace_config.get "turn_penalty_factor" = none :=
  ⟨(parse_trace_config_overlays example_collaborators example_worker
      example_trace_request).2.2 "bicycle"
      [("search_radius", some 35), ("turn_penalty_factor", some 200), ("breakage", none)]
      [("search_radius", 35)] rfl rfl (by decide)
      (List.Forall₂.cons ⟨rfl, rfl⟩ List.Forall₂.nil),
    (parse_trace_config_overlays example_collaborators example_worker
      example_trace_request).1 "turn_penalty_factor" (by decide) (by decide)⟩

end valhalla
